import Mathlib

/-!
GEMU packet codec (`gemu.go`).

A shallow embedding of the packet codec of `gemu.go`: the packet structure, the
appending writers, the cursor-based readers, the TLV parameter reader and the
length-prefixed framing (`send` / `recv`).

Modelling conventions
* A byte is a `Nat` below 256; a buffer (`[]byte`, `string`) is a `List Nat`.
  Go's integer types keep their values in range by typing, so theorems carry the
  range of a value as a hypothesis where it matters.
* The source reads and writes multi-byte integers through `unsafe.Pointer`
  casts.  They are modelled as little-endian loads and stores (the byte order of
  the hosts the program runs on, and the one its wire format documents).
* An operation that can index or slice outside its buffer returns `Option`;
  `none` stands for the run-time panic (or the wild memory access) of the source.
* A connection is modelled, for reading, as the list of bytes that arrive on it
  before it ends.
-/

namespace Gemu

/-! ## Data model -/

/-- The `Packet` struct.  `Typ` is the source's field `Type` (a `PacketType`, that is a
`uint16`); `curpos` is a Go `int` that the code only ever sets to `0`, `12`, `len(body)` or
increments, so it is a natural number. -/
structure Packet where
  DTID : Nat
  DevID : Nat
  Typ : Nat
  TXID : Nat
  body : List Nat
  curpos : Nat
deriving DecidableEq, Repr

/-- The `Parameter` struct: one TLV entry. -/
structure Parameter where
  tag : Nat
  data : List Nat
deriving DecidableEq, Repr

/-- The type `Parameters`, a slice of pointers to `Parameter`; `none` is a nil pointer. -/
abbrev Parameters := List (Option Parameter)

/-- Every element of a buffer is a byte. -/
def IsBytes (l : List Nat) : Prop := ∀ b ∈ l, b < 256

instance (l : List Nat) : Decidable (IsBytes l) := by
  unfold IsBytes; infer_instance

/-! ## Little-endian loads and stores, slices -/

/-- Value of a little-endian byte sequence. -/
def fromLE : List Nat → Nat
  | [] => 0
  | b :: bs => b + 256 * fromLE bs

/-- The `n` little-endian bytes of `v` (the low `8 * n` bits of `v`). -/
def bytesLE : Nat → Nat → List Nat
  | 0, _ => []
  | n + 1, v => (v % 256) :: bytesLE n (v / 256)

/-- The slice expression `b[lo:hi]`; `none` when `lo > hi` or `hi > len(b)`. -/
def slice (b : List Nat) (lo hi : Nat) : Option (List Nat) :=
  if lo ≤ hi ∧ hi ≤ b.length then some ((b.drop lo).take (hi - lo)) else none

/-- The load `*(*uintN)(unsafe.Pointer(&b[at]))` of an `n`-byte integer; `none` when
one of the `n` bytes lies outside the buffer. -/
def loadLE (n : Nat) (b : List Nat) (at_ : Nat) : Option Nat :=
  (slice b at_ (at_ + n)).map fromLE

/-- The store `*(*uintN)(unsafe.Pointer(&b[at])) = v` of an `n`-byte integer; `none` when
one of the `n` bytes lies outside the buffer. -/
def storeLE (n : Nat) (b : List Nat) (at_ : Nat) (v : Nat) : Option (List Nat) :=
  if at_ + n ≤ b.length then some (b.take at_ ++ bytesLE n v ++ b.drop (at_ + n)) else none

/-- The conversion `int32(u)` of a 32-bit pattern to its two's-complement value. -/
def toInt32 (u : Nat) : Int :=
  if u % 4294967296 < 2147483648 then (u % 4294967296 : Nat)
  else ((u % 4294967296 : Nat) : Int) - 4294967296

/-- The conversion `uint32(v)` of an `int32`. -/
def ofInt32 (v : Int) : Nat := (v % 4294967296).toNat

/-! ## Writers -/

/-- Source: `func (P *Packet) WriteUInt8(val uint8)`. -/
def WriteUInt8 (P : Packet) (val : Nat) : Packet :=
  { P with body := P.body ++ [val] }

/-- Source: `func (P *Packet) WriteUInt16(val uint16)`. -/
def WriteUInt16 (P : Packet) (val : Nat) : Packet :=
  { P with body := P.body ++ [val % 256, val / 256 % 256] }

/-- Source: `func (P *Packet) WriteUInt32(val uint32)`. -/
def WriteUInt32 (P : Packet) (val : Nat) : Packet :=
  { P with body := P.body ++ [val % 256, val / 256 % 256, val / 65536 % 256, val / 16777216 % 256] }

/-- Source: `func (P *Packet) WriteInt32(val int32)`. -/
def WriteInt32 (P : Packet) (val : Int) : Packet :=
  WriteUInt32 P (ofInt32 val)

/-- Source: `func (P *Packet) WriteBytes(val []byte)`. -/
def WriteBytes (P : Packet) (val : List Nat) : Packet :=
  { P with body := P.body ++ val }

/-- Source: `func (P *Packet) WriteString(val string)`; `uint16(len(val))` truncates the length. -/
def WriteString (P : Packet) (val : List Nat) : Packet :=
  let P1 := WriteUInt16 P (val.length % 65536)
  { P1 with body := P1.body ++ val }

/-! ## Readers -/

/-- Source: `func (P *Packet) ReadUInt8() (val uint8)`. -/
def ReadUInt8 (P : Packet) : Option (Nat × Packet) :=
  if P.curpos ≥ P.body.length then some (0, P)
  else (P.body[P.curpos]?).map fun val => (val, { P with curpos := P.curpos + 1 })

/-- Source: `func (P *Packet) ReadUInt16() (val uint16)`. -/
def ReadUInt16 (P : Packet) : Option (Nat × Packet) :=
  if P.curpos + 1 ≥ P.body.length then some (0, P)
  else (loadLE 2 P.body P.curpos).map fun val => (val, { P with curpos := P.curpos + 2 })

/-- Source: `func (P *Packet) ReadUInt32() (val uint32)`. -/
def ReadUInt32 (P : Packet) : Option (Nat × Packet) :=
  if P.curpos + 3 ≥ P.body.length then some (0, P)
  else (loadLE 4 P.body P.curpos).map fun val => (val, { P with curpos := P.curpos + 4 })

/-- Source: `func (P *Packet) ReadInt32() (val int32)`. -/
def ReadInt32 (P : Packet) : Option (Int × Packet) :=
  if P.curpos + 3 ≥ P.body.length then some (0, P)
  else (loadLE 4 P.body P.curpos).map fun val => (toInt32 val, { P with curpos := P.curpos + 4 })

/-- Source: `func (P *Packet) ReadString() (val string)`. -/
def ReadString (P : Packet) : Option (List Nat × Packet) :=
  (ReadUInt16 P).bind fun r =>
    let length := r.1
    let P1 := r.2
    if P1.curpos + length ≥ P1.body.length then some ([], P1)
    else (slice P1.body P1.curpos (P1.curpos + length)).map fun val =>
      (val, { P1 with curpos := P1.curpos + length })

/-- Source: `func (P *Packet) ReadParameter() (val *Parameter)`; the inner `none` is the nil result.
The parameter's data is a view into the body in the source; here it is the viewed bytes. -/
def ReadParameter (P : Packet) : Option (Option Parameter × Packet) :=
  if P.curpos ≥ P.body.length then some (none, P)
  else
    (ReadUInt8 P).bind fun r1 =>
    (ReadUInt8 r1.2).bind fun r2 =>
      let tag := r1.1
      let tlen := r2.1
      let P2 := r2.2
      if P2.curpos + tlen ≥ P2.body.length then
        (slice P2.body P2.curpos P2.body.length).map fun data =>
          (some { tag := tag, data := data }, { P2 with curpos := P2.body.length })
      else
        (slice P2.body P2.curpos (P2.curpos + tlen)).map fun data =>
          (some { tag := tag, data := data }, { P2 with curpos := P2.curpos + tlen })

/-- Source: `func (P *Packet) Valid() bool`. -/
def Valid (P : Packet) : Bool := decide (P.curpos < P.body.length)

/-- The loop of `ReadParameters`.  The first argument is the number of iterations still to
run, `paramCount - l1`; the counter `l1` is a `uint16` below `paramCount`, so incrementing
it never wraps. -/
def readParametersLoop : Nat → Packet → Parameters → Option (Parameters × Packet)
  | 0, P, params => some (params, P)
  | k + 1, P, params =>
    match ReadParameter P with
    | none => none
    | some (none, P1) => some (params, P1)
    | some (some param, P1) => readParametersLoop k P1 (params ++ [some param])

/-- Source: `func (P *Packet) ReadParameters() Parameters`. -/
def ReadParameters (P : Packet) : Option (Parameters × Packet) :=
  (ReadUInt16 P).bind fun r => readParametersLoop r.1 r.2 []

/-! ## Construction and framing -/

/-- Source: `func NewPacket(DTID uint32, DevID uint16, Type PacketType, TXID uint16) *Packet`. -/
def NewPacket (DTID DevID Typ TXID : Nat) : Packet :=
  { DTID := DTID, DevID := DevID, Typ := Typ, TXID := TXID,
    body := List.replicate 12 0, curpos := 12 }

/-- Source: `func (p *Packet) send(socket net.Conn) error`, on a connection that accepts the write.
The result is the packet after the header has been patched and the bytes handed to
`socket.Write`; `none` when a header store falls outside the buffer. -/
def send (p : Packet) : Option (Packet × List Nat) :=
  (storeLE 4 p.body 0 p.DTID).bind fun b1 =>
  (storeLE 2 b1 4 p.DevID).bind fun b2 =>
  (storeLE 2 b2 6 p.Typ).bind fun b3 =>
  (storeLE 2 b3 8 p.TXID).bind fun b4 =>
  (storeLE 2 b4 10 ((p.body.length - 12) % 65536)).map fun b5 =>
    ({ p with body := b5 }, b5)

/-- How `recv` can fail: the transport reported an error, or the code panicked. -/
inductive RecvError where
  | io
  | panic
deriving DecidableEq, Repr

/-- The call `io.ReadFull(socket, buf)` with `len(buf) = n`: the `n` bytes read and the rest of the
stream, or an error when the stream ends before `n` bytes. -/
def ReadFull (socket : List Nat) (n : Nat) : Option (List Nat × List Nat) :=
  if socket.length < n then none else some (socket.take n, socket.drop n)

/-- The builtin `copy(dst, src)`: the new contents of `dst`. -/
def copy (dst src : List Nat) : List Nat :=
  src.take dst.length ++ dst.drop src.length

/-- Turns the `none` of a buffer access into a panic. -/
def orPanic {α : Type} : Option α → Except RecvError α
  | some a => .ok a
  | none => .error .panic

/-- Turns the `none` of a transport read into an I/O error. -/
def orIO {α : Type} : Option α → Except RecvError α
  | some a => .ok a
  | none => .error .io

/-- Source: `func recv(socket net.Conn) (*Packet, error)`: the packet and the unread rest of the
stream.  `12+length` is computed in `uint16`, hence the reduction modulo 65536. -/
def recv (socket : List Nat) : Except RecvError (Packet × List Nat) := do
  let p : Packet := { DTID := 0, DevID := 0, Typ := 0, TXID := 0, body := [], curpos := 0 }
  let p := { p with body := List.replicate 12 0 }
  let (hdr, rest) ← orIO (ReadFull socket p.body.length)
  let p := { p with body := hdr }
  let (dtid, p) ← orPanic (ReadUInt32 p)
  let p := { p with DTID := dtid }
  let (devid, p) ← orPanic (ReadUInt16 p)
  let p := { p with DevID := devid }
  let (typ, p) ← orPanic (ReadUInt16 p)
  let p := { p with Typ := typ }
  let (txid, p) ← orPanic (ReadUInt16 p)
  let p := { p with TXID := txid }
  let (length, p) ← orPanic (ReadUInt16 p)
  let newBody := List.replicate ((12 + length) % 65536) 0
  let newBody := copy newBody p.body
  let p := { p with body := newBody }
  let window ← orPanic (slice p.body 12 p.body.length)
  let (payload, rest) ← orIO (ReadFull rest window.length)
  let p := { p with body := p.body.take 12 ++ payload }
  pure (p, rest)

/-! ## Sequences of writes -/

/-- One call of an appending writer, with its argument. -/
inductive WriteOp where
  | uint8 (v : Nat)
  | uint16 (v : Nat)
  | uint32 (v : Nat)
  | int32 (v : Int)
  | bytes (b : List Nat)
  | string (s : List Nat)
deriving DecidableEq, Repr

/-- Performs one write on a packet. -/
def WriteOp.run (P : Packet) : WriteOp → Packet
  | .uint8 v => WriteUInt8 P v
  | .uint16 v => WriteUInt16 P v
  | .uint32 v => WriteUInt32 P v
  | .int32 v => WriteInt32 P v
  | .bytes b => WriteBytes P b
  | .string s => WriteString P s

/-- Performs a sequence of writes, in order. -/
def runWrites (P : Packet) (ops : List WriteOp) : Packet :=
  ops.foldl WriteOp.run P

/-! ## Wire format vocabulary -/

/-- The 12 header bytes that `send` stores in front of the payload. -/
def wireHeader (p : Packet) : List Nat :=
  bytesLE 4 p.DTID ++ bytesLE 2 p.DevID ++ bytesLE 2 p.Typ ++ bytesLE 2 p.TXID ++
    bytesLE 2 ((p.body.length - 12) % 65536)

/-- The value of the length field of a frame: the 16-bit little-endian integer at offset 10. -/
def wireLength (s : List Nat) : Nat := fromLE ((s.drop 10).take 2)

/-- The packet `recv` builds from a frame of `n` bytes at the front of a stream. -/
def framePacket (s : List Nat) (n : Nat) : Packet :=
  { DTID := fromLE (s.take 4), DevID := fromLE ((s.drop 4).take 2),
    Typ := fromLE ((s.drop 6).take 2), TXID := fromLE ((s.drop 8).take 2),
    body := s.take n, curpos := 12 }

/-- The bytes one write appends to the body. -/
def WriteOp.written : WriteOp → List Nat
  | .uint8 v => [v]
  | .uint16 v => [v % 256, v / 256 % 256]
  | .uint32 v => [v % 256, v / 256 % 256, v / 65536 % 256, v / 16777216 % 256]
  | .int32 v => [ofInt32 v % 256, ofInt32 v / 256 % 256, ofInt32 v / 65536 % 256,
      ofInt32 v / 16777216 % 256]
  | .bytes b => b
  | .string s => [s.length % 65536 % 256, s.length % 65536 / 256 % 256] ++ s

/-- The bytes a sequence of writes appends to the body. -/
def writtenBytes : List WriteOp → List Nat
  | [] => []
  | op :: ops => op.written ++ writtenBytes ops

/-- The three writes that encode one parameter: `WriteUInt8(tag)`,
`WriteUInt8(uint8(len(data)))`, `WriteBytes(data)`. -/
def writeParameter (P : Packet) (e : Parameter) : Packet :=
  WriteBytes (WriteUInt8 (WriteUInt8 P e.tag) (e.data.length % 256)) e.data

/-- The writes that encode a parameter list: `WriteUInt16(uint16(N))`, then each entry in
order. -/
def writeParameters (P : Packet) (es : List Parameter) : Packet :=
  es.foldl writeParameter (WriteUInt16 P (es.length % 65536))

/-- The bytes of an encoded parameter list, without the count. -/
def encodeParameters : List Parameter → List Nat
  | [] => []
  | e :: es => e.tag :: (e.data.length % 256) :: (e.data ++ encodeParameters es)

/-! ## Positional writers, word blocks, parameter accessors -/

/-- The memory image of a `[]uint16` on a little-endian host: each word as its low byte
followed by its high byte. -/
def wordBytes : List Nat → List Nat
  | [] => []
  | w :: ws => (w % 256) :: (w / 256 % 256) :: wordBytes ws

/-- Source: `func (P *Packet) WriteWords(val []uint16)`.  The expression `&val[0]` panics with
an index out of range on an empty slice (`none`); otherwise the `2 * len(val)` bytes of the
words' memory are appended. -/
def WriteWords (P : Packet) (val : List Nat) : Option Packet :=
  match val with
  | [] => none
  | w :: ws => some { P with body := P.body ++ wordBytes (w :: ws) }

/-- Source: `func (P *Packet) CurPos() uint16`. -/
def CurPos (P : Packet) : Nat := P.body.length % 65536

/-- Source: `func (P *Packet) WriteUInt8At(val uint8, at uint16)`; `none` is the index panic. -/
def WriteUInt8At (P : Packet) (val at_ : Nat) : Option Packet :=
  if at_ < P.body.length then some { P with body := P.body.set at_ val } else none

/-- Source: `func (P *Packet) WriteUInt16At(val uint16, at uint16)`; `none` when one of the two
bytes stored lies outside the buffer. -/
def WriteUInt16At (P : Packet) (val at_ : Nat) : Option Packet :=
  (storeLE 2 P.body at_ val).map fun b => { P with body := b }

/-- Source: `func (P *Parameter) UInt32() uint32`. -/
def Parameter.UInt32 (P : Parameter) : Option Nat :=
  if P.data.length < 4 then some 0 else loadLE 4 P.data 0

/-- Source: `func (P *Parameter) UInt64() uint64`. -/
def Parameter.UInt64 (P : Parameter) : Option Nat :=
  if P.data.length < 8 then some 0 else loadLE 8 P.data 0

/-- Source: `func (P *Parameter) String() string`. -/
def Parameter.String (P : Parameter) : List Nat := P.data

/-- Source: `func (P Parameters) GetTag(tag uint8) *Parameter`; `none` is the nil result. -/
def GetTag : Parameters → Nat → Option Parameter
  | [], _ => none
  | none :: rest, tag => GetTag rest tag
  | some param :: rest, tag => if param.tag = tag then some param else GetTag rest tag

/-- The relation between a packet and the packet a read leaves behind: same buffer and header
fields, cursor moved forward and not past the end of the buffer. -/
def CursorAdvanced (P Q : Packet) : Prop :=
  Q.body = P.body ∧ Q.DTID = P.DTID ∧ Q.DevID = P.DevID ∧ Q.Typ = P.Typ ∧ Q.TXID = P.TXID ∧
    P.curpos ≤ Q.curpos ∧ Q.curpos ≤ Q.body.length

/-- The packets and results of successive `ReadParameter` calls that each return a parameter:
`ReadsParameters P ps Q` when reading `ps` in order leads from `P` to `Q`. -/
inductive ReadsParameters : Packet → Parameters → Packet → Prop where
  | done (P : Packet) : ReadsParameters P [] P
  | step {P Q R : Packet} {e : Parameter} {ps : Parameters} :
      ReadParameter P = some (some e, Q) → ReadsParameters Q ps R →
      ReadsParameters P (some e :: ps) R

/-! ## Sample values -/

/-- A fresh outgoing packet. -/
def samplePacket : Packet := NewPacket 7 2 257 42

/-- A short sequence of writes. -/
def sampleWrites : List WriteOp := [WriteOp.uint8 9, WriteOp.string [97]]

/-- A packet with three payload bytes and the cursor at the start of the payload. -/
def sampleReceived : Packet := WriteBytes (NewPacket 7 2 257 42) [1, 2, 3]

/-! ## Basic facts -/

theorem length_bytesLE (n v : Nat) : (bytesLE n v).length = n := by
  induction n generalizing v with
  | zero => rfl
  | succ n ih => simp [bytesLE, ih]

theorem fromLE_bytesLE (n v : Nat) : fromLE (bytesLE n v) = v % 256 ^ n := by
  induction n generalizing v with
  | zero => simp [bytesLE, fromLE, Nat.mod_one]
  | succ n ih =>
    simp only [bytesLE, fromLE, ih]
    rw [pow_succ', Nat.mod_mul]

theorem isBytes_bytesLE (n v : Nat) : IsBytes (bytesLE n v) := by
  induction n generalizing v with
  | zero => intro b hb; simp [bytesLE] at hb
  | succ n ih =>
    intro b hb
    simp only [bytesLE, List.mem_cons] at hb
    rcases hb with rfl | hb
    · exact Nat.mod_lt _ (by decide)
    · exact ih _ b hb

theorem fromLE_lt (l : List Nat) (h : IsBytes l) : fromLE l < 256 ^ l.length := by
  induction l with
  | nil => simp [fromLE]
  | cons b bs ih =>
    have hb : b < 256 := h b (List.mem_cons_self _ _)
    have := ih (fun x hx => h x (List.mem_cons_of_mem _ hx))
    simp only [fromLE, List.length_cons, pow_succ]
    omega

theorem slice_append_right (b x : List Nat) :
    slice (b ++ x) b.length (b.length + x.length) = some x := by
  simp [slice]

theorem exists_twelve (s : List Nat) (h : 12 ≤ s.length) :
    ∃ a0 a1 a2 a3 a4 a5 a6 a7 a8 a9 a10 a11 rest,
      s = a0 :: a1 :: a2 :: a3 :: a4 :: a5 :: a6 :: a7 :: a8 :: a9 :: a10 :: a11 :: rest := by
  rcases s with _ | ⟨a0, _ | ⟨a1, _ | ⟨a2, _ | ⟨a3, _ | ⟨a4, _ | ⟨a5, _ | ⟨a6, _ | ⟨a7,
    _ | ⟨a8, _ | ⟨a9, _ | ⟨a10, _ | ⟨a11, rest⟩⟩⟩⟩⟩⟩⟩⟩⟩⟩⟩⟩ <;>
    first
    | (simp at h; done)
    | exact ⟨_, _, _, _, _, _, _, _, _, _, _, _, _, rfl⟩

theorem storeLE_eq (n : Nat) (b : List Nat) (at_ v : Nat) (h : at_ + n ≤ b.length) :
    storeLE n b at_ v = some (b.take at_ ++ bytesLE n v ++ b.drop (at_ + n)) := by
  simp [storeLE, h]

theorem send_eq (p : Packet) (h : 12 ≤ p.body.length) :
    send p = some ({ p with body := wireHeader p ++ p.body.drop 12 },
      wireHeader p ++ p.body.drop 12) := by
  obtain ⟨a0, a1, a2, a3, a4, a5, a6, a7, a8, a9, a10, a11, rest, hs⟩ := exists_twelve p.body h
  unfold send
  rw [hs]
  rw [storeLE_eq _ _ _ _ (by simp)]
  simp only [Option.some_bind, Nat.zero_add, List.take_zero, List.nil_append,
    List.drop_succ_cons, List.drop_zero, bytesLE, List.cons_append]
  rw [storeLE_eq _ _ _ _ (by simp)]
  simp only [Option.some_bind, List.take_succ_cons, List.take_zero, List.nil_append,
    List.drop_succ_cons, List.drop_zero, bytesLE, List.cons_append]
  rw [storeLE_eq _ _ _ _ (by simp)]
  simp only [Option.some_bind, List.take_succ_cons, List.take_zero, List.nil_append,
    List.drop_succ_cons, List.drop_zero, bytesLE, List.cons_append]
  rw [storeLE_eq _ _ _ _ (by simp)]
  simp only [Option.some_bind, List.take_succ_cons, List.take_zero, List.nil_append,
    List.drop_succ_cons, List.drop_zero, bytesLE, List.cons_append]
  rw [storeLE_eq _ _ _ _ (by simp)]
  simp [wireHeader, bytesLE, hs]

theorem recv_short (s : List Nat) (h : s.length < 12) : recv s = .error .io := by
  simp [recv, ReadFull, h, orIO]
  rfl

theorem copy_length (dst src : List Nat) : (copy dst src).length = dst.length := by
  simp only [copy, List.length_append, List.length_take, List.length_drop]
  omega

theorem copy_replicate (m : Nat) (src : List Nat) (h : src.length ≤ m) :
    copy (List.replicate m 0) src = src ++ List.replicate (m - src.length) 0 := by
  simp [copy, List.take_of_length_le h]

theorem recv_eq (s : List Nat) (h : 12 ≤ s.length) :
    recv s =
      if (12 + wireLength s) % 65536 < 12 then .error .panic
      else if s.length < (12 + wireLength s) % 65536 then .error .io
      else .ok (framePacket s ((12 + wireLength s) % 65536),
        s.drop ((12 + wireLength s) % 65536)) := by
  obtain ⟨a0, a1, a2, a3, a4, a5, a6, a7, a8, a9, a10, a11, rest, rfl⟩ := exists_twelve s h
  have h1 : ReadFull (a0 :: a1 :: a2 :: a3 :: a4 :: a5 :: a6 :: a7 :: a8 :: a9 :: a10 :: a11 :: rest) 12
      = some ([a0, a1, a2, a3, a4, a5, a6, a7, a8, a9, a10, a11], rest) := by
    simp [ReadFull]
  have hw : wireLength (a0 :: a1 :: a2 :: a3 :: a4 :: a5 :: a6 :: a7 :: a8 :: a9 :: a10 :: a11 :: rest)
      = fromLE [a10, a11] := rfl
  simp only [recv, List.length_replicate, h1, orIO, orPanic, bind, Except.bind, pure, Except.pure]
  simp only [ReadUInt32, ReadUInt16, loadLE, slice, fromLE, List.length_cons, List.length_nil]
  simp
  simp only [hw, copy_length, List.length_replicate]
  generalize (12 + fromLE [a10, a11]) % 65536 = m
  by_cases hm : m < 12
  · simp [hm, Nat.not_le.mpr hm]
  · obtain ⟨k, rfl⟩ : ∃ k, m = 12 + k := ⟨m - 12, by omega⟩
    rw [copy_replicate _ _ (by simp)]
    simp only [ReadFull, framePacket]
    simp only [List.length_cons, List.length_nil, List.length_replicate, Nat.zero_add,
      Nat.add_sub_cancel_left, Nat.sub_self, List.replicate_zero, List.append_nil, hm, if_false,
      Nat.le_add_right, if_true, List.drop_append_of_le_length, List.take_replicate,
      Nat.add_comm 12 k, List.take_succ_cons, List.drop_succ_cons]
    by_cases hk : rest.length < k
    · have : rest.length + 12 < k + 12 := by omega
      simp [hk, this]
    · have : ¬ rest.length + 12 < k + 12 := by omega
      simp [hk, this]

theorem run_eq (P : Packet) (op : WriteOp) :
    op.run P = { P with body := P.body ++ op.written } := by
  cases op <;>
    simp [WriteOp.run, WriteOp.written, WriteUInt8, WriteUInt16, WriteUInt32, WriteInt32,
      WriteBytes, WriteString]

theorem runWrites_eq (P : Packet) (ops : List WriteOp) :
    runWrites P ops = { P with body := P.body ++ writtenBytes ops } := by
  induction ops generalizing P with
  | nil => simp [runWrites, writtenBytes]
  | cons op ops ih =>
    have h : runWrites P (op :: ops) = runWrites (op.run P) ops := rfl
    rw [h, ih, run_eq]
    simp [writtenBytes]

theorem runWrites_new_body (DTID DevID Typ TXID : Nat) (ops : List WriteOp) :
    (runWrites (NewPacket DTID DevID Typ TXID) ops).body
      = List.replicate 12 0 ++ writtenBytes ops := by
  rw [runWrites_eq]; rfl

theorem loadLE_append_left (n : Nat) (a b : List Nat) (at_ : Nat) (h : at_ + n ≤ a.length) :
    loadLE n (a ++ b) at_ = loadLE n a at_ := by
  have h1 : at_ + n ≤ (a ++ b).length := by simp; omega
  simp only [loadLE, slice, h, h1, Nat.le_add_right, and_self, if_true, Nat.add_sub_cancel_left]
  rw [List.drop_append_of_le_length (by omega), List.take_append_of_le_length (by simp; omega)]

theorem wireHeader_length (p : Packet) : (wireHeader p).length = 12 := by
  simp [wireHeader, length_bytesLE]

theorem wireHeader_loads (p : Packet) (hD : p.DTID < 4294967296) (hV : p.DevID < 65536)
    (hT : p.Typ < 65536) (hX : p.TXID < 65536) :
    loadLE 4 (wireHeader p) 0 = some p.DTID ∧ loadLE 2 (wireHeader p) 4 = some p.DevID ∧
    loadLE 2 (wireHeader p) 6 = some p.Typ ∧ loadLE 2 (wireHeader p) 8 = some p.TXID ∧
    loadLE 2 (wireHeader p) 10 = some ((p.body.length - 12) % 65536) := by
  simp only [wireHeader, bytesLE, loadLE, slice]
  simp [fromLE]
  omega

theorem wireLength_wireHeader (p : Packet) (rest : List Nat) :
    wireLength (wireHeader p ++ rest) = (p.body.length - 12) % 65536 := by
  simp only [wireLength, wireHeader, bytesLE]
  simp [fromLE]
  omega

theorem recv_send_panics (p : Packet) (h1 : 12 + 65524 ≤ p.body.length)
    (h2 : p.body.length ≤ 12 + 65535) :
    (send p).map (fun r => recv r.2) = some (.error .panic) := by
  rw [send_eq _ (by omega)]
  simp only [Option.map_some']
  rw [recv_eq _ (by rw [List.length_append, wireHeader_length]; omega), wireLength_wireHeader]
  rw [if_pos (by omega)]

theorem wireLength_append (hdr rest : List Nat) (h : hdr.length = 12) :
    wireLength (hdr ++ rest) = wireLength hdr := by
  unfold wireLength
  rw [List.drop_append_of_le_length (by omega), List.take_append_of_le_length (by simp; omega)]

theorem recv_panics (s : List Nat) (h12 : 12 ≤ s.length) (h1 : 65524 ≤ wireLength s)
    (h2 : wireLength s ≤ 65535) : recv s = .error .panic := by
  rw [recv_eq s h12, if_pos (by omega)]

theorem recv_frame (s : List Nat) (h12 : 12 ≤ s.length) (h1 : wireLength s ≤ 65523)
    (h2 : 12 + wireLength s ≤ s.length) :
    recv s = .ok (framePacket s (12 + wireLength s), s.drop (12 + wireLength s)) := by
  have hm : (12 + wireLength s) % 65536 = 12 + wireLength s := Nat.mod_eq_of_lt (by omega)
  rw [recv_eq s h12, hm, if_neg (by omega), if_neg (by omega)]

theorem framePacket_wireHeader (p : Packet) (pay rest : List Nat) (n : Nat)
    (hD : p.DTID < 4294967296) (hV : p.DevID < 65536) (hT : p.Typ < 65536)
    (hX : p.TXID < 65536) (hn : n = 12 + pay.length) :
    framePacket (wireHeader p ++ pay ++ rest) n
      = { p with body := wireHeader p ++ pay, curpos := 12 } := by
  subst hn
  have hb : List.take (12 + pay.length) (wireHeader p ++ pay ++ rest) = wireHeader p ++ pay := by
    rw [List.take_append_of_le_length (by simp [wireHeader_length])]
    exact List.take_of_length_le (by simp [wireHeader_length])
  unfold framePacket
  rw [hb]
  simp only [wireHeader, bytesLE]
  simp [fromLE]
  omega

theorem recv_send_roundtrip (p : Packet) (rest : List Nat) (h12 : 12 ≤ p.body.length)
    (hlen : p.body.length ≤ 12 + 65523)
    (hD : p.DTID < 4294967296) (hV : p.DevID < 65536) (hT : p.Typ < 65536)
    (hX : p.TXID < 65536) :
    ∃ out, send p = some ({ p with body := out }, out) ∧ out.drop 12 = p.body.drop 12 ∧
      recv (out ++ rest) = .ok ({ p with body := out, curpos := 12 }, rest) := by
  have hwl := wireHeader_length p
  refine ⟨_, send_eq p h12, ?_, ?_⟩
  · rw [List.drop_append_of_le_length (by omega), List.drop_of_length_le (by omega)]; rfl
  · have hw : wireLength (wireHeader p ++ List.drop 12 p.body ++ rest) = p.body.length - 12 := by
      rw [List.append_assoc, wireLength_wireHeader]; exact Nat.mod_eq_of_lt (by omega)
    have hl : (wireHeader p ++ List.drop 12 p.body ++ rest).length
        = p.body.length + rest.length := by
      simp only [List.length_append, hwl, List.length_drop]; omega
    rw [recv_frame _ (by omega) (by omega) (by omega), hw,
      framePacket_wireHeader p _ _ _ hD hV hT hX (by simp)]
    congr 2
    rw [List.drop_append_of_le_length (by simp [hwl])]
    rw [List.drop_of_length_le (by simp [hwl])]
    rfl

/-! ## Framing: `send` and `recv` -/

/-- C1, at a failing input: the packet built by `NewPacket(0, 0, 0, 0)` and one `WriteBytes` of
65524 zero bytes (a payload within the 65535 bytes of the claim) is emitted by `send`, but
`recv` on exactly the emitted bytes returns no packet: `12+length` wraps to `0` in `uint16`,
the new buffer is empty and the slice `p.body[12:]` panics. -/
theorem roundtrip_panics_at_65524 :
    (send (runWrites (NewPacket 0 0 0 0) [WriteOp.bytes (List.replicate 65524 0)])).map
      (fun r => recv r.2) = some (.error .panic) := by
  have hlen : ∀ b : List Nat, b.length = 65524 →
      (runWrites (NewPacket 0 0 0 0) [WriteOp.bytes b]).body.length = 65536 := by
    intro b hb
    rw [runWrites_new_body]
    simp only [writtenBytes, WriteOp.written, List.length_append, List.length_replicate,
      List.length_nil, hb]
  have h := hlen _ (List.length_replicate 65524 0)
  exact recv_send_panics _ (by rw [h]) (by rw [h]; decide)

/-- C2: for a packet built by `NewPacket(DTID, DevID, Type, TXID)` and any writes with a payload
of at most 65535 bytes, `send` succeeds and hands to the transport `DTID` as 4 little-endian
bytes, `DevID`, `Type`, `TXID` and `len(body) - 12` as 2 little-endian bytes each (at offsets
0, 4, 6, 8 and 10, where they load back as the original values), followed by the payload
bytes unchanged; `NewPacket(7, 2, 0x0101, 42)` without writes is sent as
`07 00 00 00 02 00 01 01 2A 00 00 00`. -/
theorem send_header_layout (DTID DevID Typ TXID : Nat) (ops : List WriteOp)
    (hD : DTID < 4294967296) (hV : DevID < 65536) (hT : Typ < 65536) (hX : TXID < 65536)
    (hlen : (runWrites (NewPacket DTID DevID Typ TXID) ops).body.length - 12 ≤ 65535) :
    (∃ P' out, send (runWrites (NewPacket DTID DevID Typ TXID) ops) = some (P', out) ∧
      out = bytesLE 4 DTID ++ bytesLE 2 DevID ++ bytesLE 2 Typ ++ bytesLE 2 TXID ++
        bytesLE 2 ((runWrites (NewPacket DTID DevID Typ TXID) ops).body.length - 12) ++
        (runWrites (NewPacket DTID DevID Typ TXID) ops).body.drop 12 ∧
      loadLE 4 out 0 = some DTID ∧ loadLE 2 out 4 = some DevID ∧
      loadLE 2 out 6 = some Typ ∧ loadLE 2 out 8 = some TXID ∧
      loadLE 2 out 10 = some ((runWrites (NewPacket DTID DevID Typ TXID) ops).body.length - 12) ∧
      out.length = (runWrites (NewPacket DTID DevID Typ TXID) ops).body.length) ∧
    (send (NewPacket 7 2 0x0101 42)).map Prod.snd = some [7, 0, 0, 0, 2, 0, 1, 1, 42, 0, 0, 0] := by
  refine ⟨?_, by decide⟩
  have hb := runWrites_new_body DTID DevID Typ TXID ops
  have hf := runWrites_eq (NewPacket DTID DevID Typ TXID) ops
  have h12 : 12 ≤ (runWrites (NewPacket DTID DevID Typ TXID) ops).body.length := by
    rw [hb]; simp
  have hl : (runWrites (NewPacket DTID DevID Typ TXID) ops).body.length - 12
      = (writtenBytes ops).length := by
    rw [hb]; simp
  have hdrop : (runWrites (NewPacket DTID DevID Typ TXID) ops).body.drop 12 = writtenBytes ops := by
    rw [hb]; simp
  have hDT : (runWrites (NewPacket DTID DevID Typ TXID) ops).DTID = DTID := by rw [hf]; rfl
  have hDV : (runWrites (NewPacket DTID DevID Typ TXID) ops).DevID = DevID := by rw [hf]; rfl
  have hTY : (runWrites (NewPacket DTID DevID Typ TXID) ops).Typ = Typ := by rw [hf]; rfl
  have hTX : (runWrites (NewPacket DTID DevID Typ TXID) ops).TXID = TXID := by rw [hf]; rfl
  have hw := wireHeader_loads (runWrites (NewPacket DTID DevID Typ TXID) ops)
    (by rw [hDT]; exact hD) (by rw [hDV]; exact hV) (by rw [hTY]; exact hT) (by rw [hTX]; exact hX)
  have hwl := wireHeader_length (runWrites (NewPacket DTID DevID Typ TXID) ops)
  have hmod : ((runWrites (NewPacket DTID DevID Typ TXID) ops).body.length - 12) % 65536
      = (runWrites (NewPacket DTID DevID Typ TXID) ops).body.length - 12 := by
    exact Nat.mod_eq_of_lt (by omega)
  rw [hDT, hDV, hTY, hTX, hmod] at hw
  obtain ⟨w1, w2, w3, w4, w5⟩ := hw
  refine ⟨_, _, send_eq _ h12, ?_, ?_, ?_, ?_, ?_, ?_, ?_⟩
  · simp only [wireHeader, hDT, hDV, hTY, hTX, hmod]
  · rw [loadLE_append_left _ _ _ _ (by rw [hwl]; decide)]; exact w1
  · rw [loadLE_append_left _ _ _ _ (by rw [hwl]; decide)]; exact w2
  · rw [loadLE_append_left _ _ _ _ (by rw [hwl]; decide)]; exact w3
  · rw [loadLE_append_left _ _ _ _ (by rw [hwl]; decide)]; exact w4
  · rw [loadLE_append_left _ _ _ _ (by rw [hwl])]; exact w5
  · rw [List.length_append, hwl, List.length_drop]; omega

/-- Witness for C2: a packet with a one-byte field and a string. -/
theorem send_header_layout_witness :
    (∃ P' out, send (runWrites (NewPacket 7 2 257 42) [.uint8 5, .string [97, 98]])
        = some (P', out) ∧
      out = bytesLE 4 7 ++ bytesLE 2 2 ++ bytesLE 2 257 ++ bytesLE 2 42 ++
        bytesLE 2 ((runWrites (NewPacket 7 2 257 42) [.uint8 5, .string [97, 98]]).body.length
          - 12) ++
        (runWrites (NewPacket 7 2 257 42) [.uint8 5, .string [97, 98]]).body.drop 12 ∧
      loadLE 4 out 0 = some 7 ∧ loadLE 2 out 4 = some 2 ∧
      loadLE 2 out 6 = some 257 ∧ loadLE 2 out 8 = some 42 ∧
      loadLE 2 out 10
        = some ((runWrites (NewPacket 7 2 257 42) [.uint8 5, .string [97, 98]]).body.length
          - 12) ∧
      out.length = (runWrites (NewPacket 7 2 257 42) [.uint8 5, .string [97, 98]]).body.length) ∧
    (send (NewPacket 7 2 0x0101 42)).map Prod.snd = some [7, 0, 0, 0, 2, 0, 1, 1, 42, 0, 0, 0] :=
  send_header_layout 7 2 257 42 [.uint8 5, .string [97, 98]]
    (by decide) (by decide) (by decide) (by decide) (by decide)

/-- C3, at a failing input: on a stream of 12 header bytes whose length field (offsets 10..11)
is `FF FF`, that is `L = 65535`, followed by 65535 payload bytes (so the stream holds
`12 + L` bytes), `recv` does not return the first `12 + L` bytes as a packet: `12+length`
wraps to `11` in `uint16` and the slice `p.body[12:]` panics. -/
theorem recv_panics_at_length_65535 :
    recv ([0, 0, 0, 0, 0, 0, 0, 0, 0, 0, 255, 255] ++ List.replicate 65535 0)
      = .error .panic := by
  have hw : wireLength ([0, 0, 0, 0, 0, 0, 0, 0, 0, 0, 255, 255] ++ List.replicate 65535 0)
      = 65535 := by
    rw [wireLength_append [0, 0, 0, 0, 0, 0, 0, 0, 0, 0, 255, 255] _ rfl]; decide
  have hl : 12 ≤ ([0, 0, 0, 0, 0, 0, 0, 0, 0, 0, 255, 255] ++ List.replicate 65535 0).length := by
    rw [List.length_append, List.length_replicate]; decide
  exact recv_panics _ hl (by rw [hw]; decide) (by rw [hw])

/-! ## Fixed-width fields -/

theorem loadLE_append_right (b x : List Nat) :
    loadLE x.length (b ++ x) b.length = some (fromLE x) := by
  simp [loadLE, slice_append_right]

theorem toInt32_ofInt32 (v : Int) (h1 : -2147483648 ≤ v) (h2 : v < 2147483648) :
    toInt32 (ofInt32 v) = v := by
  unfold toInt32 ofInt32
  have hnn : 0 ≤ v % 4294967296 := Int.emod_nonneg _ (by decide)
  have hlt : v % 4294967296 < 4294967296 := Int.emod_lt_of_pos _ (by decide)
  have hc : ((v % 4294967296).toNat : Int) = v % 4294967296 := Int.toNat_of_nonneg hnn
  have hm : (v % 4294967296).toNat % 4294967296 = (v % 4294967296).toNat :=
    Nat.mod_eq_of_lt (by omega)
  rw [hm]
  split <;> omega

theorem fromLE_four (v : Nat) (h : v < 4294967296) :
    fromLE [v % 256, v / 256 % 256, v / 65536 % 256, v / 16777216 % 256] = v := by
  simp only [fromLE]; omega

theorem fromLE_two (v : Nat) (h : v < 65536) : fromLE [v % 256, v / 256 % 256] = v := by
  simp only [fromLE]; omega

theorem ofInt32_lt (v : Int) : ofInt32 v < 4294967296 := by
  unfold ofInt32
  have hnn : 0 ≤ v % 4294967296 := Int.emod_nonneg _ (by decide)
  have hlt : v % 4294967296 < 4294967296 := Int.emod_lt_of_pos _ (by decide)
  omega

/-- C4: on a packet whose cursor is at the end of its buffer, each fixed-width writer followed by
the matching reader returns exactly the written value (any `uint8`, `uint16`, `uint32` or
`int32`, boundary values included) and advances the cursor by the field width 1, 2, 4, 4;
the written field is then the last thing in the buffer. -/
theorem fixed_width_roundtrip (P : Packet) (v8 v16 v32 : Nat) (vi : Int)
    (hc : P.curpos = P.body.length) (h16 : v16 < 65536)
    (h32 : v32 < 4294967296) (hi1 : -2147483648 ≤ vi) (hi2 : vi < 2147483648) :
    ReadUInt8 (WriteUInt8 P v8)
      = some (v8, { WriteUInt8 P v8 with curpos := P.curpos + 1 }) ∧
    ReadUInt16 (WriteUInt16 P v16)
      = some (v16, { WriteUInt16 P v16 with curpos := P.curpos + 2 }) ∧
    ReadUInt32 (WriteUInt32 P v32)
      = some (v32, { WriteUInt32 P v32 with curpos := P.curpos + 4 }) ∧
    ReadInt32 (WriteInt32 P vi)
      = some (vi, { WriteInt32 P vi with curpos := P.curpos + 4 }) := by
  refine ⟨?_, ?_, ?_, ?_⟩
  · simp [ReadUInt8, WriteUInt8, hc]
  · have h := loadLE_append_right P.body [v16 % 256, v16 / 256 % 256]
    simp only [List.length_cons, List.length_nil] at h
    simp [ReadUInt16, WriteUInt16, hc, h, fromLE_two v16 h16]
  · have h := loadLE_append_right P.body
      [v32 % 256, v32 / 256 % 256, v32 / 65536 % 256, v32 / 16777216 % 256]
    simp only [List.length_cons, List.length_nil] at h
    simp [ReadUInt32, WriteUInt32, hc, h, fromLE_four v32 h32]
  · have h := loadLE_append_right P.body
      [ofInt32 vi % 256, ofInt32 vi / 256 % 256, ofInt32 vi / 65536 % 256,
        ofInt32 vi / 16777216 % 256]
    simp only [List.length_cons, List.length_nil] at h
    simp [ReadInt32, WriteInt32, WriteUInt32, hc, h, fromLE_four _ (ofInt32_lt vi),
      toInt32_ofInt32 vi hi1 hi2]

/-- Witness for C4: a fresh packet and the boundary values. -/
theorem fixed_width_roundtrip_witness :
    ReadUInt8 (WriteUInt8 (NewPacket 1 2 3 4) 255)
      = some (255, { WriteUInt8 (NewPacket 1 2 3 4) 255 with curpos := 13 }) ∧
    ReadUInt16 (WriteUInt16 (NewPacket 1 2 3 4) 65535)
      = some (65535, { WriteUInt16 (NewPacket 1 2 3 4) 65535 with curpos := 14 }) ∧
    ReadUInt32 (WriteUInt32 (NewPacket 1 2 3 4) 4294967295)
      = some (4294967295, { WriteUInt32 (NewPacket 1 2 3 4) 4294967295 with curpos := 16 }) ∧
    ReadInt32 (WriteInt32 (NewPacket 1 2 3 4) (-2147483648))
      = some (-2147483648, { WriteInt32 (NewPacket 1 2 3 4) (-2147483648) with curpos := 16 }) :=
  fixed_width_roundtrip (NewPacket 1 2 3 4) 255 65535 4294967295 (-2147483648) rfl
    (by decide) (by decide) (by decide) (by decide)

/-- C5: when fewer bytes remain between the cursor and the end of the buffer than the field
width, each fixed-width reader returns `0` and the unchanged packet (cursor, buffer and
header fields); the result is `some`, so no error is raised and no byte at or beyond the end
of the buffer is accessed. -/
theorem fixed_width_truncated (P : Packet) :
    (P.body.length - P.curpos < 1 → ReadUInt8 P = some (0, P)) ∧
    (P.body.length - P.curpos < 2 → ReadUInt16 P = some (0, P)) ∧
    (P.body.length - P.curpos < 4 → ReadUInt32 P = some (0, P)) ∧
    (P.body.length - P.curpos < 4 → ReadInt32 P = some (0, P)) := by
  refine ⟨?_, ?_, ?_, ?_⟩ <;> intro h
  · have : P.curpos ≥ P.body.length := by omega
    simp [ReadUInt8, this]
  · have : P.curpos + 1 ≥ P.body.length := by omega
    simp [ReadUInt16, this]
  · have : P.curpos + 3 ≥ P.body.length := by omega
    simp [ReadUInt32, this]
  · have : P.curpos + 3 ≥ P.body.length := by omega
    simp [ReadInt32, this]

/-- Witness for C5: no byte left for `ReadUInt8`, one byte left for
`ReadUInt16`, three bytes left for the 32-bit readers. -/
theorem fixed_width_truncated_witness :
    ReadUInt8 (NewPacket 0 0 0 0) = some (0, NewPacket 0 0 0 0) ∧
    ReadUInt16 (WriteUInt8 (NewPacket 0 0 0 0) 7)
      = some (0, WriteUInt8 (NewPacket 0 0 0 0) 7) ∧
    ReadUInt32 (WriteBytes (NewPacket 0 0 0 0) [7, 8, 9])
      = some (0, WriteBytes (NewPacket 0 0 0 0) [7, 8, 9]) ∧
    ReadInt32 (WriteBytes (NewPacket 0 0 0 0) [7, 8, 9])
      = some (0, WriteBytes (NewPacket 0 0 0 0) [7, 8, 9]) :=
  ⟨(fixed_width_truncated (NewPacket 0 0 0 0)).1 (by decide),
   (fixed_width_truncated (WriteUInt8 (NewPacket 0 0 0 0) 7)).2.1 (by decide),
   (fixed_width_truncated (WriteBytes (NewPacket 0 0 0 0) [7, 8, 9])).2.2.1 (by decide),
   (fixed_width_truncated (WriteBytes (NewPacket 0 0 0 0) [7, 8, 9])).2.2.2 (by decide)⟩

/-- C6, counterexample: with one byte (`07`) left at the cursor, `ReadUInt16` degrades (it returns
`0` and the unchanged packet although fewer than 2 bytes remain), yet `Valid()` is still
true afterwards, and the returned `0` is not a decoded value. -/
theorem degraded_read_leaves_valid :
    ({ NewPacket 0 0 0 0 with body := List.replicate 12 0 ++ [7] } : Packet).body.length
        - ({ NewPacket 0 0 0 0 with body := List.replicate 12 0 ++ [7] } : Packet).curpos < 2 ∧
      ReadUInt16 { NewPacket 0 0 0 0 with body := List.replicate 12 0 ++ [7] }
        = some (0, { NewPacket 0 0 0 0 with body := List.replicate 12 0 ++ [7] }) ∧
      Valid { NewPacket 0 0 0 0 with body := List.replicate 12 0 ++ [7] } = true := by
  decide

/-- C6, amended: when a fixed-width read degrades because fewer bytes remain than the field
width, it returns `0` and the unchanged packet, and `Valid()` is false afterwards exactly
when no byte at all remains at the cursor: always for `ReadUInt8`, and for `ReadUInt16`,
`ReadUInt32`, `ReadInt32` if and only if `len(body) <= curpos`. -/
theorem degraded_read_valid (P : Packet) :
    (P.body.length - P.curpos < 1 → ReadUInt8 P = some (0, P) ∧ Valid P = false) ∧
    (P.body.length - P.curpos < 2 →
      ReadUInt16 P = some (0, P) ∧ (Valid P = false ↔ P.body.length ≤ P.curpos)) ∧
    (P.body.length - P.curpos < 4 →
      ReadUInt32 P = some (0, P) ∧ (Valid P = false ↔ P.body.length ≤ P.curpos)) ∧
    (P.body.length - P.curpos < 4 →
      ReadInt32 P = some (0, P) ∧ (Valid P = false ↔ P.body.length ≤ P.curpos)) := by
  have hv : Valid P = false ↔ P.body.length ≤ P.curpos := by simp [Valid]
  refine ⟨?_, ?_, ?_, ?_⟩ <;> intro h
  · have hg : P.curpos ≥ P.body.length := by omega
    exact ⟨by simp [ReadUInt8, hg], hv.mpr hg⟩
  · have hg : P.curpos + 1 ≥ P.body.length := by omega
    exact ⟨by simp [ReadUInt16, hg], hv⟩
  · have hg : P.curpos + 3 ≥ P.body.length := by omega
    exact ⟨by simp [ReadUInt32, hg], hv⟩
  · have hg : P.curpos + 3 ≥ P.body.length := by omega
    exact ⟨by simp [ReadInt32, hg], hv⟩

/-- Witness for C6 as amended: the four degraded reads at concrete packets. -/
theorem degraded_read_valid_witness :
    (ReadUInt8 (NewPacket 0 0 0 0) = some (0, NewPacket 0 0 0 0) ∧
      Valid (NewPacket 0 0 0 0) = false) ∧
    (ReadUInt16 (WriteUInt8 (NewPacket 0 0 0 0) 7)
        = some (0, WriteUInt8 (NewPacket 0 0 0 0) 7) ∧
      (Valid (WriteUInt8 (NewPacket 0 0 0 0) 7) = false ↔
        (WriteUInt8 (NewPacket 0 0 0 0) 7).body.length
          ≤ (WriteUInt8 (NewPacket 0 0 0 0) 7).curpos)) ∧
    (ReadUInt32 (NewPacket 0 0 0 0) = some (0, NewPacket 0 0 0 0) ∧
      (Valid (NewPacket 0 0 0 0) = false ↔
        (NewPacket 0 0 0 0).body.length ≤ (NewPacket 0 0 0 0).curpos)) ∧
    (ReadInt32 (WriteUInt8 (NewPacket 0 0 0 0) 7)
        = some (0, WriteUInt8 (NewPacket 0 0 0 0) 7) ∧
      (Valid (WriteUInt8 (NewPacket 0 0 0 0) 7) = false ↔
        (WriteUInt8 (NewPacket 0 0 0 0) 7).body.length
          ≤ (WriteUInt8 (NewPacket 0 0 0 0) 7).curpos)) :=
  ⟨(degraded_read_valid (NewPacket 0 0 0 0)).1 (by decide),
   (degraded_read_valid (WriteUInt8 (NewPacket 0 0 0 0) 7)).2.1 (by decide),
   (degraded_read_valid (NewPacket 0 0 0 0)).2.2.1 (by decide),
   (degraded_read_valid (WriteUInt8 (NewPacket 0 0 0 0) 7)).2.2.2 (by decide)⟩

/-! ## Strings -/

theorem readString_rejects (P : Packet) (L : Nat) (hL : loadLE 2 P.body P.curpos = some L)
    (h : P.body.length ≤ P.curpos + 2 + L) :
    ReadString P = some ([], { P with curpos := P.curpos + 2 }) := by
  have h0 : P.curpos + 2 ≤ P.body.length := by
    unfold loadLE slice at hL
    by_contra hc
    simp [hc] at hL
  have h1 : ¬ P.curpos + 1 ≥ P.body.length := by omega
  have h2 : P.curpos + 2 + L ≥ P.body.length := h
  simp [ReadString, ReadUInt16, h1, hL, h2]

theorem readString_writeString_at_end (P : Packet) (s : List Nat)
    (hc : P.curpos = P.body.length) (hs : s.length ≤ 65535) :
    ReadString (WriteString P s)
      = some ([], { WriteString P s with curpos := (WriteString P s).curpos + 2 }) := by
  have hmod : s.length % 65536 = s.length := Nat.mod_eq_of_lt (by omega)
  have hb : (WriteString P s).body
      = (P.body ++ [s.length % 256, s.length / 256 % 256]) ++ s := by
    simp [WriteString, WriteUInt16, hmod]
  have hcur : (WriteString P s).curpos = P.body.length := by
    simp [WriteString, WriteUInt16, hc]
  have hl : loadLE 2 (WriteString P s).body (WriteString P s).curpos = some s.length := by
    rw [hb, hcur, loadLE_append_left _ _ _ _ (by simp)]
    have h := loadLE_append_right P.body [s.length % 256, s.length / 256 % 256]
    simp only [List.length_cons, List.length_nil] at h
    rw [h, fromLE_two _ (by omega)]
  have hlen : (WriteString P s).body.length = P.body.length + 2 + s.length := by
    rw [hb]; simp; omega
  exact readString_rejects _ _ hl (by rw [hcur, hlen])

/-- C7, at a failing input: on a fresh packet, `WriteString("a")` appends `01 00 61`, but the
following `ReadString()` returns the empty string and advances the cursor by 2 only (to 14),
because its bound check `curpos+length >= len(body)` also rejects a string that ends exactly
at the end of the buffer. -/
theorem readString_after_writeString_last_field :
    ReadString (WriteString (NewPacket 0 0 0 0) [97])
      = some ([], { WriteString (NewPacket 0 0 0 0) [97] with curpos := 14 }) := by
  decide

/-- C8, counterexample: at cursor 12 of a 15-byte buffer the prefix `05 00` declares 5 bytes and
only 1 follows; `ReadString` returns the empty string but leaves the cursor at 14, past the
length prefix, not at 12. -/
theorem readString_short_advances :
    ({ NewPacket 0 0 0 0 with body := List.replicate 12 0 ++ [5, 0, 1] } : Packet).curpos = 12 ∧
    loadLE 2 (List.replicate 12 0 ++ [5, 0, 1]) 12 = some 5 ∧
    (List.replicate 12 0 ++ [5, 0, 1]).length - 12 < 2 + 5 ∧
    ReadString { NewPacket 0 0 0 0 with body := List.replicate 12 0 ++ [5, 0, 1] }
      = some ([], { NewPacket 0 0 0 0 with
          body := List.replicate 12 0 ++ [5, 0, 1], curpos := 14 }) := by
  decide

/-- C8, amended: on insufficient data `ReadString` returns the empty string; the cursor stays
where it was when fewer than 2 bytes remain (no length prefix can be read), and it is
advanced by exactly 2, past the length prefix, when the prefix `L` is read and fewer than
`L` bytes follow it. -/
theorem readString_insufficient (P : Packet) :
    (P.body.length - P.curpos < 2 → ReadString P = some ([], P)) ∧
    (∀ L, loadLE 2 P.body P.curpos = some L → P.body.length - P.curpos < 2 + L →
      ReadString P = some ([], { P with curpos := P.curpos + 2 })) := by
  constructor
  · intro h
    have h1 : P.curpos + 1 ≥ P.body.length := by omega
    by_cases h2 : P.curpos ≥ P.body.length
    · simp [ReadString, ReadUInt16, h1, h2]
    · have h3 : P.curpos ≤ P.body.length := by omega
      simp [ReadString, ReadUInt16, h1, h2, slice, h3]
  · intro L hL h
    have h0 : P.curpos + 2 ≤ P.body.length := by
      unfold loadLE slice at hL
      by_contra hc
      simp [hc] at hL
    exact readString_rejects P L hL (by omega)

/-- Witness for C8 as amended: one byte left, and a prefix declaring 5 bytes with one
byte after it. -/
theorem readString_insufficient_witness :
    ReadString (WriteUInt8 (NewPacket 0 0 0 0) 7)
      = some ([], WriteUInt8 (NewPacket 0 0 0 0) 7) ∧
    ReadString (WriteBytes (NewPacket 0 0 0 0) [5, 0, 1])
      = some ([], { WriteBytes (NewPacket 0 0 0 0) [5, 0, 1] with curpos := 14 }) :=
  ⟨(readString_insufficient (WriteUInt8 (NewPacket 0 0 0 0) 7)).1 (by decide),
   (readString_insufficient (WriteBytes (NewPacket 0 0 0 0) [5, 0, 1])).2 5 (by decide)
     (by decide)⟩

/-! ## Parameters -/

theorem readUInt8_eq (P : Packet) (v : Nat) (h : P.body[P.curpos]? = some v) :
    ReadUInt8 P = some (v, { P with curpos := P.curpos + 1 }) := by
  have hlt : P.curpos < P.body.length := by
    by_contra hc
    rw [List.getElem?_eq_none (by omega)] at h
    exact Option.noConfusion h
  simp [ReadUInt8, Nat.not_le.mpr hlt, h]

theorem readParameter_eq (P : Packet) (tag L : Nat) (h0 : P.body[P.curpos]? = some tag)
    (h1 : P.body[P.curpos + 1]? = some L) :
    ReadParameter P = some
      (some { tag := tag,
              data := (P.body.drop (P.curpos + 2)).take (min L (P.body.length - (P.curpos + 2))) },
       { P with curpos := P.curpos + 2 + min L (P.body.length - (P.curpos + 2)) }) := by
  have hlt : P.curpos + 1 < P.body.length := by
    by_contra hc
    rw [List.getElem?_eq_none (by omega)] at h1
    exact Option.noConfusion h1
  have hn : ¬ P.curpos ≥ P.body.length := by omega
  unfold ReadParameter
  rw [if_neg hn, readUInt8_eq P tag h0]
  simp only [Option.some_bind]
  rw [readUInt8_eq _ L h1]
  simp only [Option.some_bind]
  by_cases hc : P.curpos + 1 + 1 + L ≥ P.body.length
  · have hm : min L (P.body.length - (P.curpos + 2)) = P.body.length - (P.curpos + 2) := by
      omega
    have hs : P.curpos + 1 + 1 ≤ P.body.length := by omega
    simp only [hc, if_true, slice, hs, le_refl, and_self, Option.map_some', hm]
    have e1 : P.curpos + 1 + 1 = P.curpos + 2 := rfl
    have e2 : P.curpos + 2 + (P.body.length - (P.curpos + 2)) = P.body.length := by omega
    rw [e1, e2]
  · have hm : min L (P.body.length - (P.curpos + 2)) = L := by omega
    have hs : P.curpos + 1 + 1 + L ≤ P.body.length := by omega
    simp only [hc, if_false, slice, hs, Nat.le_add_right, and_self, if_true, Option.map_some',
      hm, Nat.add_sub_cancel_left]

theorem writeParameter_eq (P : Packet) (e : Parameter) :
    writeParameter P e
      = { P with body := P.body ++ e.tag :: (e.data.length % 256) :: e.data } := by
  simp [writeParameter, WriteBytes, WriteUInt8]

theorem foldl_writeParameter_eq (P : Packet) (es : List Parameter) :
    es.foldl writeParameter P = { P with body := P.body ++ encodeParameters es } := by
  induction es generalizing P with
  | nil => simp [encodeParameters]
  | cons e es ih =>
    rw [List.foldl_cons, ih, writeParameter_eq]
    simp [encodeParameters]

theorem readParameter_encoded (P : Packet) (pre rest : List Nat) (e : Parameter)
    (hbody : P.body = pre ++ e.tag :: (e.data.length % 256) :: (e.data ++ rest))
    (hcur : P.curpos = pre.length) (hd : e.data.length ≤ 255) :
    ReadParameter P = some (some e, { P with curpos := pre.length + 2 + e.data.length }) := by
  have hmod : e.data.length % 256 = e.data.length := Nat.mod_eq_of_lt (by omega)
  rw [hmod] at hbody
  have h0 : P.body[P.curpos]? = some e.tag := by
    rw [hbody, hcur, List.getElem?_append_right (le_refl _)]; simp
  have h1 : P.body[P.curpos + 1]? = some e.data.length := by
    rw [hbody, hcur, List.getElem?_append_right (by omega)]; simp
  have hlen : P.body.length = pre.length + 2 + e.data.length + rest.length := by
    rw [hbody]; simp; omega
  have hm : min e.data.length (P.body.length - (P.curpos + 2)) = e.data.length := by omega
  have hd : (P.body.drop (P.curpos + 2)).take e.data.length = e.data := by
    have : P.body = (pre ++ [e.tag, e.data.length]) ++ (e.data ++ rest) := by
      rw [hbody]; simp
    rw [this, hcur, List.drop_left' (by simp), List.take_left' rfl]
  rw [readParameter_eq P _ _ h0 h1, hm, hd, hcur]

theorem readParametersLoop_encoded (es : List Parameter) :
    ∀ (P : Packet) (pre : List Nat) (acc : Parameters),
      (∀ e ∈ es, e.data.length ≤ 255) →
      P.body = pre ++ encodeParameters es → P.curpos = pre.length →
      readParametersLoop es.length P acc
        = some (acc ++ es.map some, { P with curpos := P.body.length }) := by
  induction es with
  | nil =>
    intro P pre acc _ hbody hcur
    have : P.body.length = P.curpos := by rw [hbody, hcur]; simp [encodeParameters]
    simp [readParametersLoop, this]
  | cons e es ih =>
    intro P pre acc hd hbody hcur
    have hr := readParameter_encoded P pre (encodeParameters es) e hbody hcur
      (hd e (List.mem_cons_self _ _))
    simp only [List.length_cons, readParametersLoop, hr]
    rw [ih { P with curpos := pre.length + 2 + e.data.length }
      (pre ++ e.tag :: (e.data.length % 256) :: e.data) (acc ++ [some e])
      (fun x hx => hd x (List.mem_cons_of_mem _ hx))
      (by simp [hbody, encodeParameters]) (by simp; omega)]
    simp

/-- C9: for a list of `N <= 65535` entries with data lengths in `0..255`, writing into a fresh packet
`WriteUInt16(N)` and then, per entry, `WriteUInt8(tag)`, `WriteUInt8(len(data))`,
`WriteBytes(data)`, and then calling `ReadParameters()` returns exactly the `N` entries, in
the original order, with the same tags and data, and leaves the cursor at the end of the
buffer. -/
theorem parameters_roundtrip (DTID DevID Typ TXID : Nat) (es : List Parameter)
    (hN : es.length ≤ 65535) (hd : ∀ e ∈ es, e.data.length ≤ 255) :
    ReadParameters (writeParameters (NewPacket DTID DevID Typ TXID) es)
      = some (es.map some,
          { writeParameters (NewPacket DTID DevID Typ TXID) es with
            curpos := (writeParameters (NewPacket DTID DevID Typ TXID) es).body.length }) := by
  have hmod : es.length % 65536 = es.length := Nat.mod_eq_of_lt (by omega)
  have hw : writeParameters (NewPacket DTID DevID Typ TXID) es
      = { NewPacket DTID DevID Typ TXID with
          body := (List.replicate 12 0 ++ [es.length % 256, es.length / 256 % 256])
            ++ encodeParameters es } := by
    rw [writeParameters, foldl_writeParameter_eq, hmod]; rfl
  rw [hw]
  have hl : loadLE 2 ((List.replicate 12 0 ++ [es.length % 256, es.length / 256 % 256])
      ++ encodeParameters es) 12 = some es.length := by
    rw [loadLE_append_left _ _ _ _ (by simp)]
    have h := loadLE_append_right (List.replicate 12 0) [es.length % 256, es.length / 256 % 256]
    simp only [List.length_cons, List.length_nil, List.length_replicate] at h
    rw [h, fromLE_two _ (by omega)]
  have hc : ¬ (12 + 1 ≥ ((List.replicate 12 0 ++ [es.length % 256, es.length / 256 % 256])
      ++ encodeParameters es).length) := by
    simp
  unfold ReadParameters ReadUInt16
  simp only [NewPacket, hc, if_false, hl, Option.map_some', Option.some_bind]
  rw [readParametersLoop_encoded es _
    (List.replicate 12 0 ++ [es.length % 256, es.length / 256 % 256]) [] hd rfl (by simp)]
  simp

/-- Witness for C9: two entries with the same tag and an empty one. -/
theorem parameters_roundtrip_witness :
    ReadParameters (writeParameters (NewPacket 7 2 257 42)
        [{ tag := 1, data := [9, 9] }, { tag := 1, data := [] }, { tag := 255, data := [3] }])
      = some ([some { tag := 1, data := [9, 9] }, some { tag := 1, data := [] },
            some { tag := 255, data := [3] }],
          { writeParameters (NewPacket 7 2 257 42)
              [{ tag := 1, data := [9, 9] }, { tag := 1, data := [] },
                { tag := 255, data := [3] }] with
            curpos := 23 }) :=
  parameters_roundtrip 7 2 257 42
    [{ tag := 1, data := [9, 9] }, { tag := 1, data := [] }, { tag := 255, data := [3] }]
    (by decide) (by decide)

/-- C10: with at least 2 bytes remaining at cursor `c` of a buffer of bytes, `ReadParameter`
returns a non-nil parameter with tag `body[c]` whose data is the in-bounds slice
`body[c+2 : c+2+min(L, r)]` for `L = body[c+1]` and `r = len(body) - (c+2)`: exactly `L` bytes
when `r >= L`, exactly the `r` remaining bytes when `r < L`, never more than 255; the cursor
becomes `c+2+min(L, r)`, and when `L > r` it is at the end of the buffer and `Valid()` is
false. -/
theorem readParameter_clamps (P : Packet) (h2 : P.curpos + 2 ≤ P.body.length)
    (hb : IsBytes P.body) :
    ∃ tag L data P', P.body[P.curpos]? = some tag ∧ P.body[P.curpos + 1]? = some L ∧
      ReadParameter P = some (some { tag := tag, data := data }, P') ∧
      slice P.body (P.curpos + 2)
        (P.curpos + 2 + min L (P.body.length - (P.curpos + 2))) = some data ∧
      (L ≤ P.body.length - (P.curpos + 2) → data.length = L) ∧
      (P.body.length - (P.curpos + 2) < L → data.length = P.body.length - (P.curpos + 2)) ∧
      data.length ≤ 255 ∧
      P' = { P with curpos := P.curpos + 2 + min L (P.body.length - (P.curpos + 2)) } ∧
      (P.body.length - (P.curpos + 2) < L →
        P'.curpos = P'.body.length ∧ Valid P' = false) := by
  have g0 : P.curpos < P.body.length := by omega
  have g1 : P.curpos + 1 < P.body.length := by omega
  have h0 : P.body[P.curpos]? = some (P.body[P.curpos]) := List.getElem?_eq_getElem g0
  have h1 : P.body[P.curpos + 1]? = some (P.body[P.curpos + 1]) := List.getElem?_eq_getElem g1
  have hL : P.body[P.curpos + 1] < 256 := hb _ (List.getElem_mem _)
  have hlen : ((P.body.drop (P.curpos + 2)).take
      (min (P.body[P.curpos + 1]) (P.body.length - (P.curpos + 2)))).length
      = min (P.body[P.curpos + 1]) (P.body.length - (P.curpos + 2)) := by
    rw [List.length_take, List.length_drop]; omega
  refine ⟨_, _, _, _, h0, h1, readParameter_eq P _ _ h0 h1, ?_, ?_, ?_, ?_, rfl, ?_⟩
  · have : P.curpos + 2 + min (P.body[P.curpos + 1]) (P.body.length - (P.curpos + 2))
        ≤ P.body.length := by omega
    simp [slice, this]
  · intro h; rw [hlen]; omega
  · intro h; rw [hlen]; omega
  · rw [hlen]; omega
  · intro h
    have : P.curpos + 2 + min (P.body[P.curpos + 1]) (P.body.length - (P.curpos + 2))
        = P.body.length := by omega
    simp [Valid, this]

/-- Witness for C10: a parameter declaring 5 data bytes with 1 byte left. -/
theorem readParameter_clamps_witness :
    ∃ tag L data P',
      (WriteBytes (NewPacket 0 0 0 0) [9, 5, 1]).body[
        (WriteBytes (NewPacket 0 0 0 0) [9, 5, 1]).curpos]? = some tag ∧
      (WriteBytes (NewPacket 0 0 0 0) [9, 5, 1]).body[
        (WriteBytes (NewPacket 0 0 0 0) [9, 5, 1]).curpos + 1]? = some L ∧
      ReadParameter (WriteBytes (NewPacket 0 0 0 0) [9, 5, 1])
        = some (some { tag := tag, data := data }, P') ∧
      slice (WriteBytes (NewPacket 0 0 0 0) [9, 5, 1]).body
        ((WriteBytes (NewPacket 0 0 0 0) [9, 5, 1]).curpos + 2)
        ((WriteBytes (NewPacket 0 0 0 0) [9, 5, 1]).curpos + 2 +
          min L ((WriteBytes (NewPacket 0 0 0 0) [9, 5, 1]).body.length -
            ((WriteBytes (NewPacket 0 0 0 0) [9, 5, 1]).curpos + 2))) = some data ∧
      (L ≤ (WriteBytes (NewPacket 0 0 0 0) [9, 5, 1]).body.length -
          ((WriteBytes (NewPacket 0 0 0 0) [9, 5, 1]).curpos + 2) → data.length = L) ∧
      ((WriteBytes (NewPacket 0 0 0 0) [9, 5, 1]).body.length -
          ((WriteBytes (NewPacket 0 0 0 0) [9, 5, 1]).curpos + 2) < L →
        data.length = (WriteBytes (NewPacket 0 0 0 0) [9, 5, 1]).body.length -
          ((WriteBytes (NewPacket 0 0 0 0) [9, 5, 1]).curpos + 2)) ∧
      data.length ≤ 255 ∧
      P' = { WriteBytes (NewPacket 0 0 0 0) [9, 5, 1] with
        curpos := (WriteBytes (NewPacket 0 0 0 0) [9, 5, 1]).curpos + 2 +
          min L ((WriteBytes (NewPacket 0 0 0 0) [9, 5, 1]).body.length -
            ((WriteBytes (NewPacket 0 0 0 0) [9, 5, 1]).curpos + 2)) } ∧
      ((WriteBytes (NewPacket 0 0 0 0) [9, 5, 1]).body.length -
          ((WriteBytes (NewPacket 0 0 0 0) [9, 5, 1]).curpos + 2) < L →
        P'.curpos = P'.body.length ∧ Valid P' = false) :=
  readParameter_clamps (WriteBytes (NewPacket 0 0 0 0) [9, 5, 1]) (by decide) (by decide)

/-! ## Parameter lookup -/

theorem getTag_none_iff (ps : Parameters) (t : Nat) :
    GetTag ps t = none ↔ ∀ q, some q ∈ ps → q.tag ≠ t := by
  induction ps with
  | nil => simp [GetTag]
  | cons x ps ih =>
    cases x with
    | none => simp [GetTag, ih]
    | some p =>
      by_cases h : p.tag = t
      · simp only [GetTag, h, if_true]
        constructor
        · intro hc; exact Option.noConfusion hc
        · intro hq; exact absurd h (hq p (List.mem_cons_self _ _))
      · simp only [GetTag, h, if_false, ih]
        constructor
        · intro hq q hmem
          rcases List.mem_cons.mp hmem with heq | hmem
          · cases heq; exact h
          · exact hq q hmem
        · intro hq q hmem
          exact hq q (List.mem_cons_of_mem _ hmem)

theorem getTag_some_iff (ps : Parameters) (t : Nat) (p : Parameter) :
    GetTag ps t = some p ↔
      ∃ i : Nat, ps[i]? = some (some p) ∧ p.tag = t ∧
        ∀ j : Nat, j < i → ∀ q : Parameter, ps[j]? = some (some q) → q.tag ≠ t := by
  induction ps with
  | nil => simp [GetTag]
  | cons x ps ih =>
    have shift : (∃ i : Nat, ps[i]? = some (some p) ∧ p.tag = t ∧
          ∀ j : Nat, j < i → ∀ q : Parameter, ps[j]? = some (some q) → q.tag ≠ t) →
        (∀ q, x = some q → q.tag ≠ t) →
        ∃ i : Nat, (x :: ps)[i]? = some (some p) ∧ p.tag = t ∧
          ∀ j : Nat, j < i → ∀ q : Parameter, (x :: ps)[j]? = some (some q) → q.tag ≠ t := by
      rintro ⟨i, hi, ht, hmin⟩ hx
      refine ⟨i + 1, by simpa using hi, ht, ?_⟩
      intro j hj q hq
      cases j with
      | zero =>
        simp only [List.getElem?_cons_zero, Option.some.injEq] at hq
        exact hx q hq
      | succ j =>
        simp only [List.getElem?_cons_succ] at hq
        exact hmin j (by omega) q hq
    have unshift : (∃ i : Nat, (x :: ps)[i]? = some (some p) ∧ p.tag = t ∧
          ∀ j : Nat, j < i → ∀ q : Parameter, (x :: ps)[j]? = some (some q) → q.tag ≠ t) →
        (∀ q, x = some q → q.tag ≠ t) →
        ∃ i : Nat, ps[i]? = some (some p) ∧ p.tag = t ∧
          ∀ j : Nat, j < i → ∀ q : Parameter, ps[j]? = some (some q) → q.tag ≠ t := by
      rintro ⟨i, hi, ht, hmin⟩ hx
      cases i with
      | zero =>
        simp only [List.getElem?_cons_zero, Option.some.injEq] at hi
        exact absurd ht (hx p hi)
      | succ i =>
        simp only [List.getElem?_cons_succ] at hi
        refine ⟨i, hi, ht, ?_⟩
        intro j hj q hq
        exact hmin (j + 1) (by omega) q (by simpa using hq)
    cases x with
    | none =>
      simp only [GetTag, ih]
      exact ⟨fun h => shift h (by intro q hq; cases hq),
        fun h => unshift h (by intro q hq; cases hq)⟩
    | some e =>
      by_cases h : e.tag = t
      · simp only [GetTag, h, if_true, Option.some.injEq]
        constructor
        · intro he
          subst he
          exact ⟨0, by simp, h, by intro j hj; omega⟩
        · rintro ⟨i, hi, ht, hmin⟩
          cases i with
          | zero => simpa using hi
          | succ i =>
            exact absurd h (hmin 0 (by omega) e (by simp))
      · simp only [GetTag, h, if_false, ih]
        exact ⟨fun hh => shift hh (by intro q hq; cases hq; exact h),
          fun hh => unshift hh (by intro q hq; cases hq; exact h)⟩

/-- C11: `GetTag(t)` returns the parameter at the smallest index `i` such that `ps[i]` is non-nil
and has tag `t` (with duplicate tags, the first occurrence), and it returns nil if and only
if no non-nil entry of `ps` has tag `t`. -/
theorem getTag_first_match (ps : Parameters) (t : Nat) :
    (∀ p, GetTag ps t = some p ↔
      ∃ i : Nat, ps[i]? = some (some p) ∧ p.tag = t ∧
        ∀ j : Nat, j < i → ∀ q : Parameter, ps[j]? = some (some q) → q.tag ≠ t) ∧
    (GetTag ps t = none ↔ ∀ q, some q ∈ ps → q.tag ≠ t) ∧
    GetTag [some { tag := 5, data := [1] }, none, some { tag := 5, data := [2] }] 5
      = some { tag := 5, data := [1] } :=
  ⟨fun p => getTag_some_iff ps t p, getTag_none_iff ps t, by decide⟩

/-! ## The read cursor -/

theorem cursorAdvanced_refl (P : Packet) (h : P.curpos ≤ P.body.length) : CursorAdvanced P P :=
  ⟨rfl, rfl, rfl, rfl, rfl, le_refl _, h⟩

theorem cursorAdvanced_trans {P Q R : Packet} (h1 : CursorAdvanced P Q)
    (h2 : CursorAdvanced Q R) : CursorAdvanced P R := by
  obtain ⟨a1, a2, a3, a4, a5, a6, _⟩ := h1
  obtain ⟨b1, b2, b3, b4, b5, b6, b7⟩ := h2
  exact ⟨b1.trans a1, b2.trans a2, b3.trans a3, b4.trans a4, b5.trans a5, le_trans a6 b6, b7⟩

theorem cursorAdvanced_move (P : Packet) (c : Nat) (h1 : P.curpos ≤ c)
    (h2 : c ≤ P.body.length) : CursorAdvanced P { P with curpos := c } :=
  ⟨rfl, rfl, rfl, rfl, rfl, h1, h2⟩

theorem loadLE_isSome (n : Nat) (b : List Nat) (at_ : Nat) (h : at_ + n ≤ b.length) :
    ∃ v, loadLE n b at_ = some v := by
  simp [loadLE, slice, h]

theorem readUInt8_advances (P : Packet) (h : P.curpos ≤ P.body.length) :
    ∃ v Q, ReadUInt8 P = some (v, Q) ∧ CursorAdvanced P Q := by
  by_cases hc : P.curpos ≥ P.body.length
  · exact ⟨0, P, by simp [ReadUInt8, hc], cursorAdvanced_refl P h⟩
  · have hlt : P.curpos < P.body.length := by omega
    refine ⟨P.body[P.curpos], _, readUInt8_eq P _ (List.getElem?_eq_getElem hlt), ?_⟩
    exact cursorAdvanced_move P _ (by omega) (by omega)

theorem readUInt16_advances (P : Packet) (h : P.curpos ≤ P.body.length) :
    ∃ v Q, ReadUInt16 P = some (v, Q) ∧ CursorAdvanced P Q := by
  by_cases hc : P.curpos + 1 ≥ P.body.length
  · exact ⟨0, P, by simp [ReadUInt16, hc], cursorAdvanced_refl P h⟩
  · obtain ⟨v, hv⟩ := loadLE_isSome 2 P.body P.curpos (by omega)
    refine ⟨v, { P with curpos := P.curpos + 2 }, by simp [ReadUInt16, hc, hv], ?_⟩
    exact cursorAdvanced_move P _ (by omega) (by omega)

theorem readUInt32_advances (P : Packet) (h : P.curpos ≤ P.body.length) :
    ∃ v Q, ReadUInt32 P = some (v, Q) ∧ CursorAdvanced P Q := by
  by_cases hc : P.curpos + 3 ≥ P.body.length
  · exact ⟨0, P, by simp [ReadUInt32, hc], cursorAdvanced_refl P h⟩
  · obtain ⟨v, hv⟩ := loadLE_isSome 4 P.body P.curpos (by omega)
    refine ⟨v, { P with curpos := P.curpos + 4 }, by simp [ReadUInt32, hc, hv], ?_⟩
    exact cursorAdvanced_move P _ (by omega) (by omega)

theorem readInt32_advances (P : Packet) (h : P.curpos ≤ P.body.length) :
    ∃ v Q, ReadInt32 P = some (v, Q) ∧ CursorAdvanced P Q := by
  by_cases hc : P.curpos + 3 ≥ P.body.length
  · exact ⟨0, P, by simp [ReadInt32, hc], cursorAdvanced_refl P h⟩
  · obtain ⟨v, hv⟩ := loadLE_isSome 4 P.body P.curpos (by omega)
    refine ⟨toInt32 v, { P with curpos := P.curpos + 4 }, by simp [ReadInt32, hc, hv], ?_⟩
    exact cursorAdvanced_move P _ (by omega) (by omega)

theorem readString_advances (P : Packet) (h : P.curpos ≤ P.body.length) :
    ∃ v Q, ReadString P = some (v, Q) ∧ CursorAdvanced P Q := by
  obtain ⟨n, P1, h1, a1⟩ := readUInt16_advances P h
  have hb : P1.body = P.body := a1.1
  have hle : P1.curpos ≤ P1.body.length := a1.2.2.2.2.2.2
  by_cases hc : P1.curpos + n ≥ P1.body.length
  · exact ⟨[], P1, by simp [ReadString, h1, hc], a1⟩
  · have hs : slice P1.body P1.curpos (P1.curpos + n)
        = some ((P1.body.drop P1.curpos).take n) := by
      have : P1.curpos + n ≤ P1.body.length := by omega
      simp [slice, this]
    refine ⟨(P1.body.drop P1.curpos).take n, { P1 with curpos := P1.curpos + n },
      by simp [ReadString, h1, hc, hs], ?_⟩
    exact cursorAdvanced_trans a1 (cursorAdvanced_move P1 _ (by omega) (by omega))

theorem readParameter_nil (P : Packet) (h : P.body.length ≤ P.curpos) :
    ReadParameter P = some (none, P) := by
  have : P.curpos ≥ P.body.length := h
  simp [ReadParameter, this]

theorem readParameter_some (P : Packet) (h : P.curpos < P.body.length) :
    ∃ e Q, ReadParameter P = some (some e, Q) ∧ CursorAdvanced P Q ∧ P.curpos < Q.curpos := by
  have h0 : P.body[P.curpos]? = some (P.body[P.curpos]) := List.getElem?_eq_getElem h
  by_cases h1 : P.curpos + 1 < P.body.length
  · have h1e : P.body[P.curpos + 1]? = some (P.body[P.curpos + 1]) :=
      List.getElem?_eq_getElem h1
    refine ⟨_, _, readParameter_eq P _ _ h0 h1e, ?_, ?_⟩
    · exact cursorAdvanced_move P _ (by omega) (by omega)
    · show P.curpos < P.curpos + 2 + _
      omega
  · have hn : ¬ P.curpos ≥ P.body.length := by omega
    have hl : P.curpos + 1 = P.body.length := by omega
    have h2 : ReadUInt8 { P with curpos := P.curpos + 1 }
        = some (0, { P with curpos := P.curpos + 1 }) := by
      simp [ReadUInt8, hl]
    refine ⟨{ tag := P.body[P.curpos], data := [] }, { P with curpos := P.body.length }, ?_,
      cursorAdvanced_move P _ (by omega) (le_refl _), by show P.curpos < P.body.length; exact h⟩
    unfold ReadParameter
    rw [if_neg hn, readUInt8_eq P _ h0]
    simp only [Option.some_bind, h2]
    simp [slice, hl]

theorem readParametersLoop_spec (k : Nat) :
    ∀ (P : Packet) (acc : Parameters), P.curpos ≤ P.body.length →
      ∃ ps Q, readParametersLoop k P acc = some (acc ++ ps, Q) ∧ ReadsParameters P ps Q ∧
        ps.length ≤ k ∧ (∀ x ∈ ps, x ≠ none) ∧ (ps.length < k → Q.curpos = Q.body.length) ∧
        CursorAdvanced P Q := by
  induction k with
  | zero =>
    intro P acc h
    exact ⟨[], P, (by simp [readParametersLoop]), ReadsParameters.done P, le_refl _,
      (fun x hx => absurd hx (List.not_mem_nil x)),
      (fun hlt => absurd hlt (Nat.not_lt_zero _)), cursorAdvanced_refl P h⟩
  | succ k ih =>
    intro P acc h
    by_cases hc : P.body.length ≤ P.curpos
    · refine ⟨[], P, (by simp [readParametersLoop, readParameter_nil P hc]),
        ReadsParameters.done P, Nat.zero_le _, (fun x hx => absurd hx (List.not_mem_nil x)), ?_,
        cursorAdvanced_refl P h⟩
      intro _; omega
    · obtain ⟨e, Q1, hr, hadv, _⟩ := readParameter_some P (by omega)
      obtain ⟨ps, Q, hl, hchain, hlen, hnil, hend, hadv2⟩ :=
        ih Q1 (acc ++ [some e]) hadv.2.2.2.2.2.2
      refine ⟨some e :: ps, Q, ?_, ReadsParameters.step hr hchain, ?_, ?_, ?_,
        cursorAdvanced_trans hadv hadv2⟩
      · simp only [readParametersLoop, hr, hl]
        simp
      · simp only [List.length_cons]; omega
      · intro x hx
        rcases List.mem_cons.mp hx with rfl | hx
        · exact fun hne => Option.noConfusion hne
        · exact hnil x hx
      · intro hlt
        simp only [List.length_cons] at hlt
        exact hend (by omega)

theorem readParameters_spec (P : Packet) :
    ∃ n P1 ps Q, ReadUInt16 P = some (n, P1) ∧ ReadParameters P = some (ps, Q) ∧
      ReadsParameters P1 ps Q ∧ ps.length ≤ n ∧ (∀ x ∈ ps, x ≠ none) ∧
      (ps.length < n → Q.curpos = Q.body.length) ∧
      (P.curpos ≤ P.body.length → CursorAdvanced P Q) := by
  by_cases hc : P.curpos + 1 ≥ P.body.length
  · have h16 : ReadUInt16 P = some (0, P) := by simp [ReadUInt16, hc]
    refine ⟨0, P, [], P, h16, (by simp [ReadParameters, h16, readParametersLoop]),
      ReadsParameters.done P, le_refl _, (fun x hx => absurd hx (List.not_mem_nil x)),
      (fun hlt => absurd hlt (Nat.not_lt_zero _)),
      fun h => cursorAdvanced_refl P h⟩
  · obtain ⟨v, hv⟩ := loadLE_isSome 2 P.body P.curpos (by omega)
    have h16 : ReadUInt16 P = some (v, { P with curpos := P.curpos + 2 }) := by
      simp [ReadUInt16, hc, hv]
    have hadv : CursorAdvanced P { P with curpos := P.curpos + 2 } :=
      cursorAdvanced_move P _ (by omega) (by omega)
    obtain ⟨ps, Q, hl, hchain, hlen, hnil, hend, hadv2⟩ :=
      readParametersLoop_spec v { P with curpos := P.curpos + 2 } [] hadv.2.2.2.2.2.2
    refine ⟨v, _, ps, Q, h16, ?_, hchain, hlen, hnil, hend,
      fun _ => cursorAdvanced_trans hadv hadv2⟩
    simp only [ReadParameters, h16, Option.some_bind, hl, List.nil_append]

theorem readParameters_stops_early_example :
    ReadParameters (WriteBytes (WriteUInt16 (NewPacket 0 0 0 0) 3) [1, 2, 9, 9])
      = some ([some { tag := 1, data := [9, 9] }],
          { WriteBytes (WriteUInt16 (NewPacket 0 0 0 0) 3) [1, 2, 9, 9] with curpos := 18 }) := by
  decide

/-- C12: `ReadParameters` reads a 16-bit count `n` at the cursor and returns the results of
successive `ReadParameter` calls, in order; the list has at most `n` entries and no nil
entry, and it has fewer than `n` entries only when the buffer is exhausted: the cursor is
then at the end of the buffer, `Valid()` is false and a further `ReadParameter` returns
nil.  `ReadParameter` returns nil exactly when no byte remains at the cursor. -/
theorem readParameters_early_stop (P : Packet) :
    (∃ n P1 ps Q, ReadUInt16 P = some (n, P1) ∧ ReadParameters P = some (ps, Q) ∧
      ReadsParameters P1 ps Q ∧ ps.length ≤ n ∧ (∀ x ∈ ps, x ≠ none) ∧
      (ps.length < n →
        Q.curpos = Q.body.length ∧ Valid Q = false ∧ ReadParameter Q = some (none, Q))) ∧
    (∃ r Q, ReadParameter P = some (r, Q) ∧ (r = none ↔ P.body.length ≤ P.curpos)) := by
  constructor
  · obtain ⟨n, P1, ps, Q, h16, hr, hchain, hlen, hnil, hend, _⟩ := readParameters_spec P
    refine ⟨n, P1, ps, Q, h16, hr, hchain, hlen, hnil, ?_⟩
    intro hlt
    have he := hend hlt
    exact ⟨he, by simp [Valid, he], readParameter_nil Q (by omega)⟩
  · by_cases hc : P.body.length ≤ P.curpos
    · exact ⟨none, P, readParameter_nil P hc, by simp [hc]⟩
    · obtain ⟨e, Q, hr, _, _⟩ := readParameter_some P (by omega)
      exact ⟨some e, Q, hr, by simp [hc]⟩

theorem recv_ok_cursor (s : List Nat) (p : Packet) (rest : List Nat)
    (h : recv s = .ok (p, rest)) : p.curpos = 12 ∧ 12 ≤ p.body.length := by
  by_cases h12 : s.length < 12
  · rw [recv_short s h12] at h
    exact Except.noConfusion h
  · rw [recv_eq s (by omega)] at h
    by_cases h1 : (12 + wireLength s) % 65536 < 12
    · rw [if_pos h1] at h; exact Except.noConfusion h
    · rw [if_neg h1] at h
      by_cases h2 : s.length < (12 + wireLength s) % 65536
      · rw [if_pos h2] at h; exact Except.noConfusion h
      · rw [if_neg h2] at h
        have hp : p = framePacket s ((12 + wireLength s) % 65536) := by
          injection h with h
          exact (congrArg Prod.fst h).symm
        subst hp
        refine ⟨rfl, ?_⟩
        show 12 ≤ (s.take _).length
        rw [List.length_take]
        omega

/-- C17: on a packet with `curpos <= len(body)`, each read operation (`ReadUInt8`, `ReadUInt16`,
`ReadUInt32`, `ReadInt32`, `ReadString`, `ReadParameter`, `ReadParameters`) returns a result
and leaves a packet with the same buffer and header fields whose cursor `c'` satisfies
`curpos <= c' <= len(body)`; packets made by `NewPacket` and packets returned by `recv`
satisfy `curpos <= len(body)`; `Valid()` is true exactly when `curpos < len(body)`. -/
theorem cursor_invariant (P : Packet) (h : P.curpos ≤ P.body.length) :
    (∃ v Q, ReadUInt8 P = some (v, Q) ∧ CursorAdvanced P Q) ∧
    (∃ v Q, ReadUInt16 P = some (v, Q) ∧ CursorAdvanced P Q) ∧
    (∃ v Q, ReadUInt32 P = some (v, Q) ∧ CursorAdvanced P Q) ∧
    (∃ v Q, ReadInt32 P = some (v, Q) ∧ CursorAdvanced P Q) ∧
    (∃ v Q, ReadString P = some (v, Q) ∧ CursorAdvanced P Q) ∧
    (∃ v Q, ReadParameter P = some (v, Q) ∧ CursorAdvanced P Q) ∧
    (∃ v Q, ReadParameters P = some (v, Q) ∧ CursorAdvanced P Q) ∧
    (∀ D V T X : Nat, (NewPacket D V T X).curpos ≤ (NewPacket D V T X).body.length) ∧
    (∀ (s : List Nat) (p : Packet) (rest : List Nat),
      recv s = .ok (p, rest) → p.curpos ≤ p.body.length) ∧
    (Valid P = true ↔ P.curpos < P.body.length) := by
  refine ⟨readUInt8_advances P h, readUInt16_advances P h, readUInt32_advances P h,
    readInt32_advances P h, readString_advances P h, ?_, ?_, ?_, ?_, ?_⟩
  · by_cases hc : P.body.length ≤ P.curpos
    · exact ⟨none, P, readParameter_nil P hc, cursorAdvanced_refl P h⟩
    · obtain ⟨e, Q, hr, hadv, _⟩ := readParameter_some P (by omega)
      exact ⟨some e, Q, hr, hadv⟩
  · obtain ⟨_, _, ps, Q, _, hr, _, _, _, _, hadv⟩ := readParameters_spec P
    exact ⟨ps, Q, hr, hadv h⟩
  · intro D V T X
    show 12 ≤ (List.replicate 12 0).length
    simp
  · intro s p rest hr
    obtain ⟨hc, hl⟩ := recv_ok_cursor s p rest hr
    omega
  · simp [Valid]

/-- Witness for C17: a packet with three payload bytes and the cursor at 12. -/
theorem cursor_invariant_witness :
    (∃ v Q, ReadUInt8 sampleReceived = some (v, Q) ∧ CursorAdvanced sampleReceived Q) ∧
    (∃ v Q, ReadUInt16 sampleReceived = some (v, Q) ∧ CursorAdvanced sampleReceived Q) ∧
    (∃ v Q, ReadUInt32 sampleReceived = some (v, Q) ∧ CursorAdvanced sampleReceived Q) ∧
    (∃ v Q, ReadInt32 sampleReceived = some (v, Q) ∧ CursorAdvanced sampleReceived Q) ∧
    (∃ v Q, ReadString sampleReceived = some (v, Q) ∧ CursorAdvanced sampleReceived Q) ∧
    (∃ v Q, ReadParameter sampleReceived = some (v, Q) ∧ CursorAdvanced sampleReceived Q) ∧
    (∃ v Q, ReadParameters sampleReceived = some (v, Q) ∧ CursorAdvanced sampleReceived Q) ∧
    (∀ D V T X : Nat, (NewPacket D V T X).curpos ≤ (NewPacket D V T X).body.length) ∧
    (∀ (s : List Nat) (p : Packet) (rest : List Nat),
      recv s = .ok (p, rest) → p.curpos ≤ p.body.length) ∧
    (Valid sampleReceived = true ↔ sampleReceived.curpos < sampleReceived.body.length) :=
  cursor_invariant sampleReceived (by decide)

/-! ## Frame length and short streams -/

theorem send_frame_length (p : Packet) (h12 : 12 ≤ p.body.length) :
    ∃ Q out, send p = some (Q, out) ∧ out.length = p.body.length ∧
      wireLength out = (p.body.length - 12) % 65536 := by
  refine ⟨_, _, send_eq p h12, ?_, wireLength_wireHeader p _⟩
  rw [List.length_append, wireHeader_length, List.length_drop]; omega

/-- C13, counterexample: after `NewPacket(0, 0, 0, 0)` and one `WriteBytes` of 65536 zero bytes,
`send` emits a frame of 65548 bytes whose length field holds 0: the total length is not 12
plus the field, and the body on the wire exceeds 65535 bytes. -/
theorem send_length_field_wraps :
    (send (runWrites (NewPacket 0 0 0 0) [WriteOp.bytes (List.replicate 65536 0)])).map
      (fun r => (r.2.length, wireLength r.2)) = some (65548, 0) := by
  have hlen : ∀ b : List Nat, b.length = 65536 →
      (runWrites (NewPacket 0 0 0 0) [WriteOp.bytes b]).body.length = 65548 := by
    intro b hb
    rw [runWrites_new_body]
    simp only [writtenBytes, WriteOp.written, List.length_append, List.length_replicate,
      List.length_nil, hb]
  have h := hlen _ (List.length_replicate 65536 0)
  obtain ⟨Q, out, hs, hl, hw⟩ := send_frame_length _ (by rw [h]; decide)
  rw [hs, Option.map_some', hl, hw, h]

/-- C13, amended: for a packet built by `NewPacket` and any sequence of writes, `send` emits all
`len(body)` bytes and stores `(len(body) - 12) mod 65536` in the length field at offsets
10..11; when the payload `len(body) - 12` is at most 65535 bytes the total length of the
frame is 12 plus the value of its length field, which is at most 65535. -/
theorem wire_length_invariant (DTID DevID Typ TXID : Nat) (ops : List WriteOp) :
    ∃ Q out, send (runWrites (NewPacket DTID DevID Typ TXID) ops) = some (Q, out) ∧
      out.length = (runWrites (NewPacket DTID DevID Typ TXID) ops).body.length ∧
      wireLength out
        = ((runWrites (NewPacket DTID DevID Typ TXID) ops).body.length - 12) % 65536 ∧
      ((runWrites (NewPacket DTID DevID Typ TXID) ops).body.length - 12 ≤ 65535 →
        out.length = 12 + wireLength out ∧ wireLength out ≤ 65535) := by
  have hb := runWrites_new_body DTID DevID Typ TXID ops
  have hl : 12 ≤ (runWrites (NewPacket DTID DevID Typ TXID) ops).body.length := by
    rw [hb, List.length_append, List.length_replicate]; omega
  obtain ⟨Q, out, hs, ho, hw⟩ :=
    send_frame_length (runWrites (NewPacket DTID DevID Typ TXID) ops) hl
  refine ⟨Q, out, hs, ho, hw, ?_⟩
  intro hle
  rw [hw, Nat.mod_eq_of_lt (by omega), ho]
  omega

/-- Witness for C13 as amended: a packet with a 4-byte payload. -/
theorem wire_length_invariant_witness :
    ∃ Q out, send (runWrites (NewPacket 7 2 257 42) [WriteOp.uint32 5]) = some (Q, out) ∧
      out.length = 12 + wireLength out ∧ wireLength out ≤ 65535 := by
  obtain ⟨Q, out, hs, _, _, h⟩ := wire_length_invariant 7 2 257 42 [WriteOp.uint32 5]
  exact ⟨Q, out, hs, h (by decide)⟩

theorem recv_error_iff (s : List Nat) (h12 : 12 ≤ s.length) (hL : wireLength s ≤ 65523) :
    recv s = .error .io ↔ s.length < 12 + wireLength s := by
  have hm : (12 + wireLength s) % 65536 = 12 + wireLength s := Nat.mod_eq_of_lt (by omega)
  rw [recv_eq s h12, hm, if_neg (by omega)]
  by_cases h : s.length < 12 + wireLength s
  · simp [h]
  · simp [h]

/-- C15, at a failing input: the stream `00 00 00 00 00 00 00 00 00 00 FF FF` ends after its
12 header bytes, before the `12 + L` bytes its length field `L = 65535` announces.  `recv`
does not return an error: `12+length` wraps to 11 in `uint16` and the slice `p.body[12:]`
panics before the second read. -/
theorem recv_panics_on_short_stream :
    wireLength [0, 0, 0, 0, 0, 0, 0, 0, 0, 0, 255, 255] = 65535 ∧
    [0, 0, 0, 0, 0, 0, 0, 0, 0, 0, 255, 255].length < 12 + 65535 ∧
    recv [0, 0, 0, 0, 0, 0, 0, 0, 0, 0, 255, 255] = .error .panic := by
  refine ⟨by decide, by decide, ?_⟩
  rfl

/-! ## Writers -/

theorem bytesLE_four (v : Nat) :
    bytesLE 4 v = [v % 256, v / 256 % 256, v / 65536 % 256, v / 16777216 % 256] := by
  simp only [bytesLE, Nat.div_div_eq_div_mul]

/-- C16: each writer appends to the buffer and changes nothing else (earlier bytes, cursor and
header fields are those of the packet before): `WriteUInt8(v)` appends the byte `v`,
`WriteUInt16(v)` the bytes `v mod 256, v / 256`, `WriteUInt32(v)` the 4 little-endian bytes
of `v`, `WriteInt32(v)` the 4 little-endian bytes of `v mod 2^32`, and `WriteBytes(b)` the
bytes of `b`. -/
theorem writers_append (P : Packet) (v8 v16 v32 : Nat) (vi : Int) (b : List Nat)
    (h16 : v16 < 65536) (h32 : v32 < 4294967296) :
    WriteUInt8 P v8 = { P with body := P.body ++ [v8] } ∧
    WriteUInt16 P v16 = { P with body := P.body ++ [v16 % 256, v16 / 256] } ∧
    (WriteUInt32 P v32 = { P with body := P.body ++ bytesLE 4 v32 } ∧
      fromLE (bytesLE 4 v32) = v32) ∧
    (WriteInt32 P vi = { P with body := P.body ++ bytesLE 4 (vi % 4294967296).toNat } ∧
      (fromLE (bytesLE 4 (vi % 4294967296).toNat) : Int) = vi % 4294967296) ∧
    WriteBytes P b = { P with body := P.body ++ b } := by
  refine ⟨rfl, ?_, ⟨?_, ?_⟩, ⟨?_, ?_⟩, rfl⟩
  · have : v16 / 256 % 256 = v16 / 256 := Nat.mod_eq_of_lt (by omega)
    simp [WriteUInt16, this]
  · rw [bytesLE_four]; rfl
  · rw [fromLE_bytesLE]; exact Nat.mod_eq_of_lt (by omega)
  · rw [bytesLE_four]; rfl
  · have hnn : 0 ≤ vi % 4294967296 := Int.emod_nonneg _ (by decide)
    have hlt : vi % 4294967296 < 4294967296 := Int.emod_lt_of_pos _ (by decide)
    rw [fromLE_bytesLE, Nat.mod_eq_of_lt (by omega)]
    exact Int.toNat_of_nonneg hnn

/-- Witness for C16: the largest unsigned values and `-1` written into a fresh packet. -/
theorem writers_append_witness :
    WriteUInt8 samplePacket 255 = { samplePacket with body := samplePacket.body ++ [255] } ∧
    WriteUInt16 samplePacket 65535 = { samplePacket with body := samplePacket.body ++ [65535 % 256, 65535 / 256] } ∧
    (WriteUInt32 samplePacket 4294967295 = { samplePacket with body := samplePacket.body ++ bytesLE 4 4294967295 } ∧
      fromLE (bytesLE 4 4294967295) = 4294967295) ∧
    (WriteInt32 samplePacket (-1) = { samplePacket with body := samplePacket.body ++ bytesLE 4 ((-1) % 4294967296).toNat } ∧
      (fromLE (bytesLE 4 ((-1) % 4294967296).toNat) : Int) = (-1) % 4294967296) ∧
    WriteBytes samplePacket [1, 2, 3] = { samplePacket with body := samplePacket.body ++ [1, 2, 3] } :=
  writers_append samplePacket 255 65535 4294967295 (-1) [1, 2, 3]
    (by decide) (by decide)

theorem getElem?_patch (A B X Y : List Nat) (i : Nat) (hXY : X.length = Y.length)
    (h : i < A.length ∨ A.length + X.length ≤ i) :
    (A ++ X ++ B)[i]? = (A ++ Y ++ B)[i]? := by
  rcases h with h | h
  · rw [List.append_assoc, List.append_assoc, List.getElem?_append_left h,
      List.getElem?_append_left h]
  · rw [List.getElem?_append_right (by simp; omega),
      List.getElem?_append_right (by simp; omega)]
    simp [hXY]

/-- C14: for a packet with `len(body) <= 65535`, `CurPos()` returns `len(body)` (12 for a fresh
packet).  After recording `pos = CurPos()`, writing a placeholder with `WriteUInt16` (resp.
`WriteUInt8`) and any further writes, `WriteUInt16At(v, pos)` (resp. `WriteUInt8At(v, pos)`)
succeeds, sets bytes `pos, pos+1` to `v mod 256, v / 256` (resp. byte `pos` to `v`) and
leaves the buffer length, every other byte, the cursor and the header fields unchanged; a
reader positioned at `pos` then reads `v` back. -/
theorem positional_patching (P : Packet) (ops : List WriteOp) (ph8 ph16 v8 v16 : Nat)
    (hlen : P.body.length ≤ 65535) (h16 : v16 < 65536) :
    CurPos P = P.body.length ∧
    (∀ D V T X : Nat, CurPos (NewPacket D V T X) = 12) ∧
    (∃ Q, WriteUInt16At (runWrites (WriteUInt16 P ph16) ops) v16 (CurPos P) = some Q ∧
      Q = { runWrites (WriteUInt16 P ph16) ops with
            body := (runWrites (WriteUInt16 P ph16) ops).body.take (CurPos P) ++
              [v16 % 256, v16 / 256] ++
              (runWrites (WriteUInt16 P ph16) ops).body.drop (CurPos P + 2) } ∧
      Q.body.length = (runWrites (WriteUInt16 P ph16) ops).body.length ∧
      (∀ i : Nat, i ≠ CurPos P → i ≠ CurPos P + 1 →
        Q.body[i]? = (runWrites (WriteUInt16 P ph16) ops).body[i]?) ∧
      ReadUInt16 { Q with curpos := CurPos P }
        = some (v16, { Q with curpos := CurPos P + 2 })) ∧
    (∃ Q, WriteUInt8At (runWrites (WriteUInt8 P ph8) ops) v8 (CurPos P) = some Q ∧
      Q = { runWrites (WriteUInt8 P ph8) ops with
            body := (runWrites (WriteUInt8 P ph8) ops).body.take (CurPos P) ++ [v8] ++
              (runWrites (WriteUInt8 P ph8) ops).body.drop (CurPos P + 1) } ∧
      Q.body.length = (runWrites (WriteUInt8 P ph8) ops).body.length ∧
      (∀ i : Nat, i ≠ CurPos P →
        Q.body[i]? = (runWrites (WriteUInt8 P ph8) ops).body[i]?) ∧
      ReadUInt8 { Q with curpos := CurPos P }
        = some (v8, { Q with curpos := CurPos P + 1 })) := by
  have hpos : CurPos P = P.body.length := Nat.mod_eq_of_lt (by omega)
  refine ⟨hpos, fun _ _ _ _ => rfl, ?_, ?_⟩
  · rw [hpos]
    have hR : runWrites (WriteUInt16 P ph16) ops
        = { P with body := P.body ++ [ph16 % 256, ph16 / 256 % 256] ++ writtenBytes ops } := by
      rw [runWrites_eq]; rfl
    have hhi : v16 / 256 % 256 = v16 / 256 := Nat.mod_eq_of_lt (by omega)
    have hst : storeLE 2 (P.body ++ [ph16 % 256, ph16 / 256 % 256] ++ writtenBytes ops)
        P.body.length v16 = some (P.body ++ [v16 % 256, v16 / 256] ++ writtenBytes ops) := by
      rw [storeLE_eq _ _ _ _ (by simp)]
      have e1 : (P.body ++ [ph16 % 256, ph16 / 256 % 256] ++ writtenBytes ops).take
          P.body.length = P.body := by
        rw [List.append_assoc]; exact List.take_left' rfl
      have e2 : (P.body ++ [ph16 % 256, ph16 / 256 % 256] ++ writtenBytes ops).drop
          (P.body.length + 2) = writtenBytes ops := List.drop_left' (by simp)
      rw [e1, e2]
      simp [bytesLE, hhi]
    have e1 : (P.body ++ [ph16 % 256, ph16 / 256 % 256] ++ writtenBytes ops).take
        P.body.length = P.body := by
      rw [List.append_assoc]; exact List.take_left' rfl
    have e2 : (P.body ++ [ph16 % 256, ph16 / 256 % 256] ++ writtenBytes ops).drop
        (P.body.length + 2) = writtenBytes ops := List.drop_left' (by simp)
    rw [hR]
    simp only [e1, e2]
    refine ⟨_, by simp only [WriteUInt16At, hst, Option.map_some'], rfl, by simp, ?_, ?_⟩
    · intro i hi1 hi2
      exact getElem?_patch P.body (writtenBytes ops) _ _ i rfl
        (by simp only [List.length_cons, List.length_nil]; omega)
    · have hl : loadLE 2 (P.body ++ [v16 % 256, v16 / 256] ++ writtenBytes ops) P.body.length
          = some v16 := by
        rw [loadLE_append_left _ _ _ _ (by simp)]
        have h := loadLE_append_right P.body [v16 % 256, v16 / 256]
        simp only [List.length_cons, List.length_nil] at h
        rw [h]
        simp only [fromLE]
        congr 1
        omega
      have hc : ¬ (P.body.length + 1
          ≥ (P.body ++ [v16 % 256, v16 / 256] ++ writtenBytes ops).length) := by
        simp
      simp only [ReadUInt16, hc, if_false, hl, Option.map_some']
  · rw [hpos]
    have hR : runWrites (WriteUInt8 P ph8) ops
        = { P with body := P.body ++ [ph8] ++ writtenBytes ops } := by
      rw [runWrites_eq]; rfl
    have e1 : (P.body ++ [ph8] ++ writtenBytes ops).take P.body.length = P.body := by
      rw [List.append_assoc]; exact List.take_left' rfl
    have e2 : (P.body ++ [ph8] ++ writtenBytes ops).drop (P.body.length + 1)
        = writtenBytes ops := List.drop_left' (by simp)
    rw [hR]
    simp only [e1, e2]
    have hlt : P.body.length < (P.body ++ [ph8] ++ writtenBytes ops).length := by
      simp
    have hset : (P.body ++ [ph8] ++ writtenBytes ops).set P.body.length v8
        = P.body ++ [v8] ++ writtenBytes ops := by
      rw [List.append_assoc, List.set_append_right _ _ (le_refl _)]
      simp
    refine ⟨_, by simp only [WriteUInt8At, hlt, if_true, hset], rfl, by simp, ?_, ?_⟩
    · intro i hi
      exact getElem?_patch P.body (writtenBytes ops) _ _ i rfl
        (by simp only [List.length_cons, List.length_nil]; omega)
    · have hg : (P.body ++ [v8] ++ writtenBytes ops)[P.body.length]? = some v8 := by
        rw [List.append_assoc, List.getElem?_append_right (le_refl _)]
        simp
      exact readUInt8_eq ⟨P.DTID, P.DevID, P.Typ, P.TXID,
        P.body ++ [v8] ++ writtenBytes ops, P.body.length⟩ v8 hg

/-- Witness for C14: a fresh packet, a placeholder, two further writes, then the patch. -/
theorem positional_patching_witness :
    CurPos samplePacket = samplePacket.body.length ∧
    (∀ D V T X : Nat, CurPos (NewPacket D V T X) = 12) ∧
    (∃ Q, WriteUInt16At (runWrites (WriteUInt16 samplePacket 0) sampleWrites) 43981 (CurPos samplePacket) = some Q ∧
      Q = { runWrites (WriteUInt16 samplePacket 0) sampleWrites with
            body := (runWrites (WriteUInt16 samplePacket 0) sampleWrites).body.take
                (CurPos samplePacket) ++
              [43981 % 256, 43981 / 256] ++
              (runWrites (WriteUInt16 samplePacket 0) sampleWrites).body.drop
                (CurPos samplePacket + 2) } ∧
      Q.body.length = (runWrites (WriteUInt16 samplePacket 0) sampleWrites).body.length ∧
      (∀ i : Nat, i ≠ CurPos samplePacket → i ≠ CurPos samplePacket + 1 →
        Q.body[i]? = (runWrites (WriteUInt16 samplePacket 0) sampleWrites).body[i]?) ∧
      ReadUInt16 { Q with curpos := CurPos samplePacket }
        = some (43981, { Q with curpos := CurPos samplePacket + 2 })) ∧
    (∃ Q, WriteUInt8At (runWrites (WriteUInt8 samplePacket 0) sampleWrites) 239 (CurPos samplePacket) = some Q ∧
      Q = { runWrites (WriteUInt8 samplePacket 0) sampleWrites with
            body := (runWrites (WriteUInt8 samplePacket 0) sampleWrites).body.take
                (CurPos samplePacket) ++ [239] ++
              (runWrites (WriteUInt8 samplePacket 0) sampleWrites).body.drop
                (CurPos samplePacket + 1) } ∧
      Q.body.length = (runWrites (WriteUInt8 samplePacket 0) sampleWrites).body.length ∧
      (∀ i : Nat, i ≠ CurPos samplePacket →
        Q.body[i]? = (runWrites (WriteUInt8 samplePacket 0) sampleWrites).body[i]?) ∧
      ReadUInt8 { Q with curpos := CurPos samplePacket }
        = some (239, { Q with curpos := CurPos samplePacket + 1 })) :=
  positional_patching samplePacket sampleWrites 0 0 239 43981
    (by decide) (by decide)

theorem foldl_writeUInt16 (ws : List Nat) :
    ∀ P : Packet, ws.foldl WriteUInt16 P = { P with body := P.body ++ wordBytes ws } := by
  induction ws with
  | nil => intro P; simp [wordBytes]
  | cons w ws ih => intro P; rw [List.foldl_cons, ih]; simp [WriteUInt16, wordBytes]

theorem length_wordBytes (ws : List Nat) : (wordBytes ws).length = 2 * ws.length := by
  induction ws with
  | nil => rfl
  | cons w ws ih => simp only [wordBytes, List.length_cons, ih]; omega

/-- C20: for a non-empty slice of words, `WriteWords` appends exactly `2 * len(ws)` bytes, each
word in order as 2 little-endian bytes, the same packet as calling `WriteUInt16` on each
word in turn, and leaves earlier bytes and the cursor unchanged; on the empty slice it
panics (index out of range at `&val[0]`). -/
theorem writeWords_appends (P : Packet) (ws : List Nat) (h : ws ≠ []) :
    (∃ Q, WriteWords P ws = some Q ∧ Q = ws.foldl WriteUInt16 P ∧
      Q = { P with body := P.body ++ wordBytes ws } ∧
      Q.body.length = P.body.length + 2 * ws.length ∧
      Q.body.take P.body.length = P.body ∧ Q.curpos = P.curpos) ∧
    WriteWords P [] = none := by
  refine ⟨?_, rfl⟩
  cases ws with
  | nil => exact absurd rfl h
  | cons w ws =>
    refine ⟨_, rfl, (foldl_writeUInt16 (w :: ws) P).symm, rfl, ?_, ?_, rfl⟩
    · show (P.body ++ wordBytes (w :: ws)).length = _
      rw [List.length_append, length_wordBytes]
    · show (P.body ++ wordBytes (w :: ws)).take P.body.length = P.body
      exact List.take_left' rfl

/-- Witness for C20: two words appended to a fresh packet. -/
theorem writeWords_appends_witness :
    (∃ Q, WriteWords samplePacket [4660, 65535] = some Q ∧ Q = [4660, 65535].foldl WriteUInt16 samplePacket ∧
      Q = { samplePacket with body := samplePacket.body ++ wordBytes [4660, 65535] } ∧
      Q.body.length = samplePacket.body.length + 2 * [4660, 65535].length ∧
      Q.body.take samplePacket.body.length = samplePacket.body ∧ Q.curpos = samplePacket.curpos) ∧
    WriteWords samplePacket [] = none :=
  writeWords_appends samplePacket [4660, 65535] (by decide)

/-! ## Exact-fit reads and parameter accessors -/

theorem loadLE_exact (n : Nat) (b : List Nat) (at_ : Nat) (h : at_ + n = b.length) :
    loadLE n b at_ = some (fromLE (b.drop at_)) := by
  have h1 : at_ + n ≤ b.length := by omega
  have h2 : (b.drop at_).length ≤ n := by rw [List.length_drop]; omega
  simp [loadLE, slice, h1, List.take_of_length_le h2]

/-- C18, counterexample: with exactly 2 bytes `01 02` left at the cursor, `ReadUInt16` does not
reject the read: it returns `0x0201 = 513` and advances the cursor by 2. -/
theorem readUInt16_accepts_exactly_two_bytes :
    (WriteBytes (NewPacket 0 0 0 0) [1, 2]).curpos + 2
        = (WriteBytes (NewPacket 0 0 0 0) [1, 2]).body.length ∧
    ReadUInt16 (WriteBytes (NewPacket 0 0 0 0) [1, 2])
      = some (513, { WriteBytes (NewPacket 0 0 0 0) [1, 2] with curpos := 14 }) := by
  decide

/-- C18, amended: when exactly `N` bytes remain between the cursor and the end of the buffer, the
bound check `curpos+(N-1) >= len(body)` of `ReadUInt16` (`N = 2`), `ReadUInt32` and
`ReadInt32` (`N = 4`) accepts the read: the reader returns the little-endian value of the
final `N` bytes and advances the cursor by `N`. -/
theorem multibyte_reads_accept_exact_fit (P : Packet) :
    (P.curpos + 2 = P.body.length →
      ReadUInt16 P = some (fromLE (P.body.drop P.curpos), { P with curpos := P.curpos + 2 })) ∧
    (P.curpos + 4 = P.body.length →
      ReadUInt32 P = some (fromLE (P.body.drop P.curpos), { P with curpos := P.curpos + 4 })) ∧
    (P.curpos + 4 = P.body.length →
      ReadInt32 P
        = some (toInt32 (fromLE (P.body.drop P.curpos)), { P with curpos := P.curpos + 4 })) := by
  refine ⟨?_, ?_, ?_⟩ <;> intro h
  · have hc : ¬ P.curpos + 1 ≥ P.body.length := by omega
    simp [ReadUInt16, hc, loadLE_exact 2 P.body P.curpos h]
  · have hc : ¬ P.curpos + 3 ≥ P.body.length := by omega
    simp [ReadUInt32, hc, loadLE_exact 4 P.body P.curpos h]
  · have hc : ¬ P.curpos + 3 ≥ P.body.length := by omega
    simp [ReadInt32, hc, loadLE_exact 4 P.body P.curpos h]

/-- Witness for C18 as amended: exactly 2 and exactly 4 bytes left in a packet. -/
theorem multibyte_reads_accept_exact_fit_witness :
    ReadUInt16 (WriteBytes (NewPacket 0 0 0 0) [1, 2])
      = some (fromLE ((WriteBytes (NewPacket 0 0 0 0) [1, 2]).body.drop 12),
          { WriteBytes (NewPacket 0 0 0 0) [1, 2] with curpos := 14 }) ∧
    ReadUInt32 (WriteBytes (NewPacket 0 0 0 0) [1, 2, 3, 4])
      = some (fromLE ((WriteBytes (NewPacket 0 0 0 0) [1, 2, 3, 4]).body.drop 12),
          { WriteBytes (NewPacket 0 0 0 0) [1, 2, 3, 4] with curpos := 16 }) ∧
    ReadInt32 (WriteBytes (NewPacket 0 0 0 0) [1, 2, 3, 255])
      = some (toInt32 (fromLE ((WriteBytes (NewPacket 0 0 0 0) [1, 2, 3, 255]).body.drop 12)),
          { WriteBytes (NewPacket 0 0 0 0) [1, 2, 3, 255] with curpos := 16 }) :=
  ⟨(multibyte_reads_accept_exact_fit (WriteBytes (NewPacket 0 0 0 0) [1, 2])).1 (by decide),
   (multibyte_reads_accept_exact_fit (WriteBytes (NewPacket 0 0 0 0) [1, 2, 3, 4])).2.1
     (by decide),
   (multibyte_reads_accept_exact_fit (WriteBytes (NewPacket 0 0 0 0) [1, 2, 3, 255])).2.2
     (by decide)⟩

/-- C19: for every parameter, `UInt32()` returns the little-endian value of the first 4 data
bytes when the data has at least 4 bytes and 0 otherwise, `UInt64()` the little-endian value
of the first 8 data bytes when the data has at least 8 bytes and 0 otherwise, and `String()`
all data bytes; the integer accessors always return a value, so they never read outside the
data. -/
theorem parameter_accessors (p : Parameter) :
    (4 ≤ p.data.length → p.UInt32 = some (fromLE (p.data.take 4))) ∧
    (p.data.length < 4 → p.UInt32 = some 0) ∧
    (8 ≤ p.data.length → p.UInt64 = some (fromLE (p.data.take 8))) ∧
    (p.data.length < 8 → p.UInt64 = some 0) ∧
    p.String = p.data := by
  refine ⟨?_, ?_, ?_, ?_, rfl⟩ <;> intro h
  · have : ¬ p.data.length < 4 := by omega
    simp [Parameter.UInt32, this, loadLE, slice, h]
  · simp [Parameter.UInt32, h]
  · have : ¬ p.data.length < 8 := by omega
    simp [Parameter.UInt64, this, loadLE, slice, h]
  · simp [Parameter.UInt64, h]

/-- Witness for C19: data of 9 bytes for the full reads, of 3 bytes for the zero results. -/
theorem parameter_accessors_witness :
    (Parameter.mk 1 [1, 2, 3, 4, 5, 6, 7, 8, 9]).UInt32 = some (fromLE [1, 2, 3, 4]) ∧
    (Parameter.mk 1 [1, 2, 3]).UInt32 = some 0 ∧
    (Parameter.mk 1 [1, 2, 3, 4, 5, 6, 7, 8, 9]).UInt64
      = some (fromLE [1, 2, 3, 4, 5, 6, 7, 8]) ∧
    (Parameter.mk 1 [1, 2, 3]).UInt64 = some 0 :=
  ⟨(parameter_accessors (Parameter.mk 1 [1, 2, 3, 4, 5, 6, 7, 8, 9])).1 (by decide),
   (parameter_accessors (Parameter.mk 1 [1, 2, 3])).2.1 (by decide),
   (parameter_accessors (Parameter.mk 1 [1, 2, 3, 4, 5, 6, 7, 8, 9])).2.2.1 (by decide),
   (parameter_accessors (Parameter.mk 1 [1, 2, 3])).2.2.2.1 (by decide)⟩

end Gemu
